import Mathlib

/-! # transactional-update: libmount wrapper (`lib/Mount.cpp`), /etc overlay stack (`lib/Overlay.cpp`)

A shallow embedding of the two classes `Mount` (with `BindMount`, `PropagatedBindMount`) and
`Overlay`, followed by theorems about them.

Modelling conventions

* Paths and option names are `String`s.  `std::filesystem::path` values are kept in the
  normal form the program itself produces (no trailing slash, no doubled slash), so that
  equality of `std::filesystem::path` values is string equality.  libmount compares the target
  of a record with a path by `streq_paths`, which is modelled as it is written.
* The file system is a function from paths to nodes; a file is known by the mount table it
  parses to (`none` when libmount cannot parse it).  The fields of a record are taken free of
  blanks and escapes, so that a line libmount writes parses back to the fields written.
* A libmount option string is kept tokenised, the way `mnt_optstr_parse_next` cuts it: a list
  of `name[=value]` items.  Names and values are taken free of the separators `,` `=` `"`.
* libmount keeps, next to the option string of a record, one copy per class of option
  (filesystem-specific, VFS, userspace), made anew whenever the option string is set; the
  copies are modelled as a function of the option string.  The option maps of libmount, which
  decide the class of an item, are a parameter.
* C++ exceptions are values of `Exception`; a member function returns the object state after
  the call together with either its result or the exception thrown.
* Calls that leave the process (mount, umount, the rsync command, error log lines) are
  recorded as `Event`s in call order.
-/

namespace TransactionalUpdate

/-! ## Mount table records and the file system -/

/-- One `name[=value]` item of an option string. -/
abbrev OptItem := String × Option String

/-- A mount record (`struct libmnt_fs`): the fstab fields, and for records of the live mount
table the mount id and the id of the parent mount. -/
structure MntFs where
  source : Option String
  target : Option String
  fstype : Option String
  optstr : Option (List OptItem)
  id : Nat
  parent : Nat
deriving DecidableEq, Repr

/-- The record `mnt_new_fs()` returns: every field unset. -/
def mnt_new_fs : MntFs :=
  { source := none, target := none, fstype := none, optstr := none, id := 0, parent := 0 }

/-- A node of the file system: a directory, or a file with the mount table libmount parses
from it (`none`: not a parseable table). -/
inductive Node where
  | dir
  | file (table : Option (List MntFs))
deriving DecidableEq, Repr

/-- The file system: what is found at each path. -/
abbrev FileSystem := String → Option Node

/-- Path `q` lies strictly below directory `p`. -/
def isUnder (p q : String) : Bool :=
  (p.data ++ ['/']).isPrefixOf q.data

/-- Model of `std::filesystem::is_directory`. -/
def is_directory (fs : FileSystem) (p : String) : Bool :=
  match fs p with
  | some Node.dir => true
  | _ => false

/-- Model of `std::filesystem::remove_all`: the path and everything below it is gone. -/
def remove_all (fs : FileSystem) (p : String) : FileSystem :=
  fun q => if q = p ∨ isUnder p q = true then none else fs q

/-- Model of `std::filesystem::create_directories`: the path and each of its ancestors that
does not exist yet becomes a directory. -/
def create_directories (fs : FileSystem) (p : String) : FileSystem :=
  fun q =>
    if q ≠ "" ∧ (q = p ∨ isUnder q p = true) then
      match fs q with
      | none => some Node.dir
      | some n => some n
    else fs q

/-- Model of `mnt_table_parse_file`: the records of the table file, `none` for a nonzero
return code. -/
def mnt_table_parse_file (fs : FileSystem) (file : String) : Option (List MntFs) :=
  match fs file with
  | some (Node.file (some records)) => some records
  | _ => none

/-- Model of `next_path_segment` (libmount, `strutils.c`): after the slashes that are followed
by another slash, the next character and the characters behind it up to the next slash; the
second component is what follows the segment.  `none` at the end of the path. -/
def next_path_segment : List Char → Option (List Char × List Char)
  | [] => none
  | c :: rest =>
    if c = '/' ∧ rest.head? = some '/' then next_path_segment rest
    else some (c :: rest.takeWhile (fun d => d != '/'), rest.dropWhile (fun d => d != '/'))

/-- The loop of `streq_paths`, bounded by `fuel` passes: the paths are compared segment by
segment; a single slash left over on one side is ignored. -/
def streqPathsLoop : Nat → List Char → List Char → Bool
  | 0, _, _ => false
  | fuel + 1, a, b =>
    match next_path_segment a, next_path_segment b with
    | none, none => true
    | some (sa, _), none => decide (sa = ['/'])
    | none, some (sb, _) => decide (sb = ['/'])
    | some (sa, ra), some (sb, rb) => if sa = sb then streqPathsLoop fuel ra rb else false

/-- Model of `streq_paths` (libmount, `strutils.c`): equality of two paths in which repeated
slashes and a trailing slash do not count.  Each pass of the loop takes at least one character
off the first path, so the passes given are enough. -/
def streq_paths (a b : String) : Bool :=
  streqPathsLoop (a.data.length + 1) a.data b.data

/-- Model of `mnt_fs_streq_target`: the record has a target and `streq_paths` holds of it and
`path`. -/
def mnt_fs_streq_target (r : MntFs) (path : String) : Bool :=
  match r.target with
  | none => false
  | some t => streq_paths t path

/-- Model of `mnt_table_find_target(tb, path, MNT_ITER_BACKWARD)` for a table without a path
cache and an absolute `path`: the last record whose target is `path` up to repeated and
trailing slashes; a null or empty path finds nothing. -/
def mnt_table_find_target (tb : List MntFs) (path : Option String) : Option MntFs :=
  match path with
  | none => none
  | some p => if p = "" then none else tb.reverse.find? (fun r => mnt_fs_streq_target r p)

/-- Model of `operator/` on `std::filesystem::path` (POSIX): an absolute right operand
replaces the left one, otherwise it is appended after a separator. -/
def pathAppend (a b : String) : String :=
  if b.data.head? = some '/' then b
  else if a = "" ∨ a.data.getLast? = some '/' then a ++ b
  else a ++ "/" ++ b

/-- Model of `path::relative_path()`: the path without its root directory. -/
def relative_path (p : String) : String :=
  String.mk (p.data.dropWhile (fun c => c == '/'))

/-- Model of `path::parent_path()`. -/
def parent_path (p : String) : String :=
  let stem := ((p.data.reverse.dropWhile (fun c => c != '/')).dropWhile (fun c => c == '/')).reverse
  if stem = [] ∧ p.data.head? = some '/' then "/" else String.mk stem

/-! ## C++ exceptions and outside calls -/

/-- The exceptions the two classes throw.  All are `std::runtime_error` except
`optionNotPresent`, which is `std::range_error`, and `undefined`, which stands for undefined
behaviour of the C++ program (a null `char*` made into a `std::string`, writing through
`rbegin()` of an empty vector, closing a stream twice). -/
inductive Exception where
  | readTable
  | notFound
  | noOptions
  | optionNotRemoved
  | optionNotSet
  | optionRetrieve
  | optionNotPresent
  | setSource
  | setType
  | setTarget
  | mountFailed
  | persistParse
  | persistRemove
  | persistAdd
  | persistWrite
  | execFailed
  | undefined
deriving DecidableEq, Repr

deriving instance DecidableEq for Except

/-- The exception is the `std::range_error` of `Mount::getOption`. -/
def Exception.isRangeError : Exception → Bool
  | Exception.optionNotPresent => true
  | _ => false

/-- A call that leaves the process. -/
inductive Event where
  | mount (fs : MntFs) (flags : Nat)
  | umount (fs : MntFs)
  | exec (cmd : String)
  | logError (about : Option String)
deriving DecidableEq, Repr

/-- Outcomes decided outside the program: whether `mnt_context_mount` / `mnt_context_umount`
leave a diagnostic text in the buffer `mnt_context_get_excode` fills, whether a command run by
`Util::exec` ends with a nonzero status, and the state in which `mnt_context_mount` leaves the
record it was given: libmount writes into that record while it prepares the mount (the target
is replaced by its canonical path, the option string is rewritten to agree with the flags). -/
structure Kernel where
  mountFails : MntFs → Nat → Bool
  umountFails : MntFs → Bool
  execFails : String → Bool
  prepared : MntFs → Nat → MntFs

/-! ## Option strings (libmount `optstr.c`) -/

/-- The text can stand in an option string as a name or as a value the way it is: it holds
none of the characters `,` `=` `"` at which libmount cuts an option string. -/
def plainWord (s : String) : Bool :=
  s.data.all (fun c => c != ',' && c != '=' && c != '"')

/-- Model of `mnt_optstr_locate_option`: the first item called `name`.  The search compares
the length of `name` with the length of the name of each item, which is never zero: an empty
`name` finds nothing. -/
def mnt_optstr_locate_option (optstr : List OptItem) (name : String) : Option OptItem :=
  optstr.find? (fun o => decide (name ≠ "" ∧ o.1 = name))

/-- Model of `mnt_optstr_remove_option`: drops the first item called `name`; `none` for
return code 1 (no such item). -/
def mnt_optstr_remove_option : List OptItem → String → Option (List OptItem)
  | [], _ => none
  | o :: rest, name =>
    if name ≠ "" ∧ o.1 = name then some rest
    else (mnt_optstr_remove_option rest name).map (fun r => o :: r)

/-- Model of `mnt_optstr_set_option` with a non-null value: the first item called `name`
gets the value in place; without such an item `name=value` is appended, by
`mnt_optstr_append_option`, which returns at once for an empty name (and writes `name=` for an
empty value). -/
def mnt_optstr_set_option : List OptItem → String → String → List OptItem
  | [], name, value => if name = "" then [] else [(name, some value)]
  | o :: rest, name, value =>
    if name ≠ "" ∧ o.1 = name then (name, some value) :: rest
    else o :: mnt_optstr_set_option rest name value

/-- How often an option string holds an item that `mnt_optstr_locate_option` takes for
`name`. -/
def optCount (optstr : List OptItem) (name : String) : Nat :=
  optstr.countP (fun o => decide (name ≠ "" ∧ o.1 = name))

/-- The class under which `mnt_split_optstr` files an item of an option string: an item its
maps mark as a comment (`defaults`) is dropped, an item of the map of VFS flags or of the map
of userspace options goes to the copy of that class, every other item to the copy of the
filesystem-specific options. -/
inductive OptClass where
  | ignored
  | vfs
  | fs
  | user
deriving DecidableEq, Repr

/-- The copy of the option string that `mnt_fs_set_options` keeps for class `c`, as
`mnt_split_optstr` builds it: the items of that class, in their order. -/
def splitOptstr (maps : OptItem → OptClass) (c : OptClass) (optstr : List OptItem) : List OptItem :=
  optstr.filter (fun o => decide (maps o = c))

/-- Model of `mnt_fs_get_option`: the item is looked for in the copy of the
filesystem-specific options, then in the copy of the VFS options, then in the copy of the
userspace options; `none` is return code 1.  `maps` stands for libmount's option maps. -/
def mnt_fs_get_option (maps : OptItem → OptClass) (optstr : List OptItem) (name : String) :
    Option OptItem :=
  match mnt_optstr_locate_option (splitOptstr maps OptClass.fs optstr) name with
  | some o => some o
  | none =>
    match mnt_optstr_locate_option (splitOptstr maps OptClass.vfs optstr) name with
    | some o => some o
    | none => mnt_optstr_locate_option (splitOptstr maps OptClass.user optstr) name

/-! ## class Mount -/

/-- State of a `Mount` object.  `mnt_cxt` tells whether the libmount context has been
allocated (it is only in `mount`); `mnt_fs` is the record found or created, if any. -/
structure Mount where
  mnt_cxt : Bool
  mnt_table : List MntFs
  mnt_fs : Option MntFs
  target : String
  flags : Nat
  tabsource : String
deriving DecidableEq, Repr

namespace Mount

/-- Constructor `Mount::Mount(target, flags)`. -/
def new (target : String) (flags : Nat) : Mount :=
  { mnt_cxt := false, mnt_table := [], mnt_fs := none, target := target, flags := flags,
    tabsource := "" }

/-- Modelled from the spec: the default value of the `flags` parameter of the constructor,
which `Mount.h` declares; the spec has the flags "defaulting to none". -/
def defaultFlags : Nat := 0

/-- Model of `Mount::setTabSource`. -/
def setTabSource (m : Mount) (source : String) : Mount :=
  { m with tabsource := source }

/-- Model of `Mount::getTabEntry`: nothing when a record is held already; otherwise the table
(fstab, or the file set by `setTabSource`) is parsed and searched backwards. -/
def getTabEntry (fs : FileSystem) (m : Mount) : Mount × Except Exception Unit :=
  if m.mnt_fs.isSome then (m, Except.ok ())
  else
    match mnt_table_parse_file fs (if m.tabsource = "" then "/etc/fstab" else m.tabsource) with
    | none => (m, Except.error Exception.readTable)
    | some records =>
      let tb := m.mnt_table ++ records
      ({ m with mnt_table := tb, mnt_fs := mnt_table_find_target tb (some m.target) },
        Except.ok ())

/-- Model of `Mount::find`. -/
def find (fs : FileSystem) (m : Mount) : Mount × Except Exception Unit :=
  match getTabEntry fs m with
  | (m1, Except.error e) => (m1, Except.error e)
  | (m1, Except.ok _) =>
    if m1.mnt_fs.isNone then (m1, Except.error Exception.notFound) else (m1, Except.ok ())

/-- Model of `Mount::getMntFs`. -/
def getMntFs (fs : FileSystem) (m : Mount) : Mount × Except Exception Unit :=
  match getTabEntry fs m with
  | (m1, Except.error e) => (m1, Except.error e)
  | (m1, Except.ok _) =>
    if m1.mnt_fs.isNone then ({ m1 with mnt_fs := some mnt_new_fs }, Except.ok ())
    else (m1, Except.ok ())

/-- Model of `Mount::isMount`. -/
def isMount (fs : FileSystem) (m : Mount) : Mount × Except Exception Bool :=
  match getTabEntry fs m with
  | (m1, Except.error e) => (m1, Except.error e)
  | (m1, Except.ok _) => (m1, Except.ok m1.mnt_fs.isSome)

/-- Model of `Mount::removeOption`. -/
def removeOption (fs : FileSystem) (m : Mount) (option : String) : Mount × Except Exception Unit :=
  match find fs m with
  | (m1, Except.error e) => (m1, Except.error e)
  | (m1, Except.ok _) =>
    match m1.mnt_fs with
    | none => (m1, Except.error Exception.notFound)
    | some r =>
      match r.optstr with
      | none => (m1, Except.error Exception.noOptions)
      | some current_opts =>
        match mnt_optstr_remove_option current_opts option with
        | none => (m1, Except.error Exception.optionNotRemoved)
        | some new_opts =>
          ({ m1 with mnt_fs := some { r with optstr := some new_opts } }, Except.ok ())

/-- Model of `Mount::getOption`; `maps` stands for libmount's option maps.  An item found
without a value leaves the null pointer in `opt`, of which a `std::string` is made. -/
def getOption (maps : OptItem → OptClass) (fs : FileSystem) (m : Mount) (option : String) :
    Mount × Except Exception String :=
  match find fs m with
  | (m1, Except.error e) => (m1, Except.error e)
  | (m1, Except.ok _) =>
    match m1.mnt_fs with
    | none => (m1, Except.error Exception.notFound)
    | some r =>
      match r.optstr with
      | none => (m1, Except.error Exception.optionNotPresent)
      | some opts =>
        match mnt_fs_get_option maps opts option with
        | none => (m1, Except.error Exception.optionNotPresent)
        | some (_, none) => (m1, Except.error Exception.undefined)
        | some (_, some value) => (m1, Except.ok value)

/-- Model of `Mount::setOption`. -/
def setOption (fs : FileSystem) (m : Mount) (option value : String) :
    Mount × Except Exception Unit :=
  match find fs m with
  | (m1, Except.error e) => (m1, Except.error e)
  | (m1, Except.ok _) =>
    match m1.mnt_fs with
    | none => (m1, Except.error Exception.notFound)
    | some r =>
      match r.optstr with
      | none => (m1, Except.error Exception.noOptions)
      | some current_opts =>
        ({ m1 with mnt_fs := some { r with optstr := some (mnt_optstr_set_option current_opts option value) } },
          Except.ok ())

/-- Model of `Mount::setSource`. -/
def setSource (fs : FileSystem) (m : Mount) (source : String) : Mount × Except Exception Unit :=
  match getMntFs fs m with
  | (m1, Except.error e) => (m1, Except.error e)
  | (m1, Except.ok _) =>
    match m1.mnt_fs with
    | none => (m1, Except.error Exception.setSource)
    | some r => ({ m1 with mnt_fs := some { r with source := some source } }, Except.ok ())

/-- Model of `Mount::setType`. -/
def setType (fs : FileSystem) (m : Mount) (type : String) : Mount × Except Exception Unit :=
  match getMntFs fs m with
  | (m1, Except.error e) => (m1, Except.error e)
  | (m1, Except.ok _) =>
    match m1.mnt_fs with
    | none => (m1, Except.error Exception.setType)
    | some r => ({ m1 with mnt_fs := some { r with fstype := some type } }, Except.ok ())

/-- Model of `Mount::mount(pfx)`: the record's target becomes `pfx + target`
(`mnt_fs_set_target` fails on a null record), the context is allocated, the target directory
is created and the mount call is issued with the object's flags; a diagnostic text from the
kernel becomes an exception.  The event carries the record as it is handed to
`mnt_context_mount`; the object holds the record as that call leaves it. -/
def mount (k : Kernel) (fs : FileSystem) (m : Mount) (pfx : String) :
    Mount × FileSystem × List Event × Except Exception Unit :=
  let mounttarget := pfx ++ m.target
  match m.mnt_fs with
  | none => (m, fs, [], Except.error Exception.setTarget)
  | some r =>
    let r1 := { r with target := some mounttarget }
    let m1 := { m with mnt_fs := some (k.prepared r1 m.flags), mnt_cxt := true }
    (m1, create_directories fs mounttarget, [Event.mount r1 m.flags],
      if k.mountFails r1 m.flags = true then Except.error Exception.mountFailed else Except.ok ())

/-- The loop inside `mnt_table_next_child_fs`: a scan of the whole table for the child of
`parent_id` whose id is nearest to `lastchld_id` in the direction of iteration; `chfs` is the
best record so far.  Id 0 stands for "none yet", as in libmount. -/
def nextChildScan (backward : Bool) (parent_id lastchld_id : Nat) :
    List MntFs → Option MntFs → Option MntFs
  | [], chfs => chfs
  | fs :: rest, chfs =>
    if fs.parent ≠ parent_id then nextChildScan backward parent_id lastchld_id rest chfs
    else if fs.id = parent_id then nextChildScan backward parent_id lastchld_id rest chfs
    else
      let chld_id := match chfs with
        | none => 0
        | some c => c.id
      if backward = true then
        if (lastchld_id = 0 ∨ fs.id < lastchld_id) ∧ (chld_id = 0 ∨ fs.id > chld_id) then
          nextChildScan backward parent_id lastchld_id rest (some fs)
        else nextChildScan backward parent_id lastchld_id rest chfs
      else
        if (lastchld_id = 0 ∨ fs.id > lastchld_id) ∧ (chld_id = 0 ∨ fs.id < chld_id) then
          nextChildScan backward parent_id lastchld_id rest (some fs)
        else nextChildScan backward parent_id lastchld_id rest chfs

/-- Model of `mnt_table_next_child_fs`: the next child of `parent` after the child returned
last (`none` on the first call); `none` is return code 1, the end of the children. -/
def mnt_table_next_child_fs (backward : Bool) (tb : List MntFs) (parent : MntFs)
    (last : Option MntFs) : Option MntFs :=
  nextChildScan backward parent.id (match last with | none => 0 | some l => l.id) tb none

mutual

/-- Model of `Mount::umountRecursive`.  Nothing happens unless the member `mnt_cxt` is set and
the record is non-null.  Otherwise the children are unmounted first, then the record itself;
a failed unmount only leaves an error line.  `mountinfo` tells whether the table carries
mount ids; without them `mnt_table_next_child_fs` returns an error, which is logged and ends
the loop at once.  `backward` is the direction in which libmount hands out the children.  The
recursion is bounded by `fuel`; `none` means the bound was reached. -/
def umountRecursive (k : Kernel) (mountinfo backward : Bool) (tb : List MntFs) (mnt_cxt : Bool) :
    Nat → Option MntFs → Option (List Event)
  | 0, umount_fs => if mnt_cxt = true ∧ umount_fs.isSome = true then none else some []
  | _ + 1, none => some []
  | fuel + 1, some umount_fs =>
    if mnt_cxt = true then
      let children :=
        if mountinfo = true then
          umountChildren k mountinfo backward tb mnt_cxt fuel umount_fs none
        else some [Event.logError umount_fs.target]
      match children with
      | none => none
      | some evs =>
        some (evs ++ Event.umount umount_fs ::
          (if k.umountFails umount_fs = true then [Event.logError umount_fs.target] else []))
    else some []

/-- The `while` loop of `Mount::umountRecursive` over the children of `umount_fs`, `last`
being the child handled in the previous pass. -/
def umountChildren (k : Kernel) (mountinfo backward : Bool) (tb : List MntFs) (mnt_cxt : Bool) :
    Nat → MntFs → Option MntFs → Option (List Event)
  | 0, _, _ => none
  | fuel + 1, umount_fs, last =>
    match mnt_table_next_child_fs backward tb umount_fs last with
    | none => some []
    | some child_fs =>
      match umountRecursive k mountinfo backward tb mnt_cxt fuel (some child_fs) with
      | none => none
      | some evs =>
        match umountChildren k mountinfo backward tb mnt_cxt fuel umount_fs (some child_fs) with
        | none => none
        | some more => some (evs ++ more)

end

/-- Destructor `Mount::~Mount`: the live mount table is read (`mtab`, `none` when that fails,
which is logged and leaves an empty table), the record whose target is the target of the
held record is looked up in it, and `umountRecursive` runs on it. -/
def destroy (k : Kernel) (mountinfo backward : Bool) (mtab : Option (List MntFs)) (fuel : Nat)
    (m : Mount) : Option (List Event) :=
  let umount_table := match mtab with
    | none => []
    | some tb => tb
  let parseLog := match mtab with
    | none => [Event.logError none]
    | some _ => []
  let umount_fs := mnt_table_find_target umount_table (m.mnt_fs.bind (fun r => r.target))
  (umountRecursive k mountinfo backward umount_table m.mnt_cxt fuel umount_fs).map
    (fun evs => parseLog ++ evs)

/-- Record `d` is a child mount of `a`: its parent id is the id of `a`, and it is not its own
parent. -/
def IsChild (a d : MntFs) : Prop :=
  d.parent = a.id ∧ d.id ≠ a.id

/-- Record `d` of the table lies below `a`: a child of `a`, or a child of a record below
`a`. -/
inductive Descendant (tb : List MntFs) : MntFs → MntFs → Prop where
  | child (a d : MntFs) : d ∈ tb → IsChild a d → Descendant tb a d
  | step (a c d : MntFs) : Descendant tb a c → d ∈ tb → IsChild c d → Descendant tb a d

/-- The events of a run of unmount calls on `calls`, in order: each call, followed by an
error line when the kernel `k` makes it fail. -/
def umountEvents (k : Kernel) (calls : List MntFs) : List Event :=
  calls.flatMap (fun r =>
    Event.umount r :: (if k.umountFails r = true then [Event.logError r.target] else []))

end Mount

/-- Mount flag `MS_BIND`. -/
def MS_BIND : Nat := 4096

/-- Mount flag `MS_REC`. -/
def MS_REC : Nat := 16384

/-- Mount flag `MS_SLAVE`. -/
def MS_SLAVE : Nat := 524288

namespace BindMount

/-- Constructor `BindMount::BindMount(target, flags)`. -/
def new (target : String) (flags : Nat) : Mount :=
  Mount.new target (flags ||| MS_BIND)

/-- Model of `BindMount::mount(pfx)`: an object that holds no record gets a fresh one whose
source is the target; then `Mount::mount`. -/
def mount (k : Kernel) (fs : FileSystem) (m : Mount) (pfx : String) :
    Mount × FileSystem × List Event × Except Exception Unit :=
  match m.mnt_fs with
  | none =>
    Mount.mount k fs { m with mnt_fs := some { mnt_new_fs with source := some m.target } } pfx
  | some _ => Mount.mount k fs m pfx

end BindMount

namespace PropagatedBindMount

/-- Constructor `PropagatedBindMount::PropagatedBindMount(target, flags)`. -/
def new (target : String) (flags : Nat) : Mount :=
  BindMount.new target (flags ||| MS_REC ||| MS_SLAVE)

end PropagatedBindMount

/-! ## class Overlay -/

/-- What the program takes from parts that are not in these two files: the configuration
values `OVERLAY_DIR` and `DRACUT_SYSROOT`, the root path the snapshot backend reports for a
snapshot id (`Snapshot::open` followed by `getRoot`), the default value that `Overlay.h`
declares for the second parameter of `updateMountDirs`, and the option maps of the libmount
the program is linked with. -/
structure Config where
  overlayDir : String
  sysroot : String
  snapRoot : String → String
  defaultPrefix : String
  optClass : OptItem → OptClass

/-- State of an `Overlay` object. -/
structure Overlay where
  upperdir : String
  workdir : String
  lowerdirs : List String
deriving DecidableEq, Repr

/-- Model of the loop `while (getline(ss, item, delim))`: the pieces between delimiters; no
empty piece is produced after the last delimiter. -/
def getlineSplit (delim : Char) : List Char → List Char → List String
  | [], acc => if acc = [] then [] else [String.mk acc.reverse]
  | c :: cs, acc =>
    if c = delim then String.mk acc.reverse :: getlineSplit delim cs []
    else getlineSplit delim cs (c :: acc)

/-- Model of `regex_replace(lowerdir, regex("^" + DRACUT_SYSROOT), "")` for a sysroot written
without regex metacharacters: a leading sysroot is cut off. -/
def stripSysroot (cfg : Config) (lowerdir : String) : String :=
  if cfg.sysroot.data.isPrefixOf lowerdir.data then
    String.mk (lowerdir.data.drop cfg.sysroot.data.length)
  else lowerdir

/-- The compatibility location of the overlay from before per-snapshot directories. -/
def legacyOverlay : String := "/sysroot/var/lib/overlay/etc"

namespace Overlay

/-- Constructor `Overlay::Overlay(snapshot)`: derives upperdir and workdir, creates workdir,
and reads the lowerdirs out of the `/etc` record of `<upperdir>/fstab`; any exception on the
way leaves the lowerdirs empty. -/
def new (cfg : Config) (fs : FileSystem) (snapshot : String) : Overlay × FileSystem :=
  let upperdir := pathAppend (pathAppend cfg.overlayDir snapshot) "etc"
  let workdir := pathAppend (pathAppend cfg.overlayDir snapshot) "work-etc"
  let fs1 := create_directories fs workdir
  let mntEtc := (Mount.new "/etc" Mount.defaultFlags).setTabSource (pathAppend upperdir "fstab")
  let lowerdirs :=
    match (mntEtc.getOption cfg.optClass fs1 "lowerdir").2 with
    | Except.ok fstabLowerdirs =>
      (getlineSplit ':' fstabLowerdirs.data []).map (stripSysroot cfg)
    | Except.error _ => []
  ({ upperdir := upperdir, workdir := workdir, lowerdirs := lowerdirs }, fs1)

/-- Model of `Overlay::getIdOfOverlayDir`, for an `OVERLAY_DIR` written without regex
metacharacters: `dir` matches `^OVERLAY_DIR/(.+)/etc$` when it is `OVERLAY_DIR/`, a nonempty
middle part without line terminators, and `/etc`; the middle part is the id.  No match gives
the empty string. -/
def getIdOfOverlayDir (cfg : Config) (dir : String) : String :=
  let head := cfg.overlayDir.data ++ ['/']
  let tail := dir.data.drop head.length
  let mid := tail.take (tail.length - 4)
  if head.isPrefixOf dir.data ∧ tail.drop (tail.length - 4) = ['/', 'e', 't', 'c'] ∧ mid ≠ []
      ∧ mid.all (fun c => c != '\n' && c != '\r') = true then
    String.mk mid
  else ""

/-- One pass of the loop body of `Overlay::create` for the parent entry at position `i`. -/
def createStep (cfg : Config) (fs : FileSystem) (parentLowerdirs : List String)
    (lowerdirs : List String) (i : Nat) (lowerdir : String) : List String :=
  if lowerdir = legacyOverlay ∧ lowerdirs = parentLowerdirs then
    lowerdirs ++ [lowerdir]
  else
    let snapId := getIdOfOverlayDir cfg lowerdir
    if snapId = "" then lowerdirs ++ [lowerdir]
    else if is_directory fs (cfg.snapRoot snapId) = true then parentLowerdirs.take (i + 1)
    else lowerdirs

/-- The loop of `Overlay::create` over the parent entries from position `i` on. -/
def createLoop (cfg : Config) (fs : FileSystem) (parentLowerdirs : List String) :
    List String → Nat → List String → List String
  | [], _, lowerdirs => lowerdirs
  | lowerdir :: rest, i, lowerdirs =>
    createLoop cfg fs parentLowerdirs rest (i + 1)
      (createStep cfg fs parentLowerdirs lowerdirs i lowerdir)

/-- Model of `Overlay::create(base)`. -/
def create (cfg : Config) (base : String) (s : Overlay × FileSystem) : Overlay × FileSystem :=
  if base = "" then s
  else
    let (parent, fs1) := Overlay.new cfg s.2 base
    let fs2 := create_directories (remove_all fs1 s.1.upperdir) s.1.upperdir
    let lowerdirs := createLoop cfg fs2 parent.lowerdirs parent.lowerdirs 0 s.1.lowerdirs
    ({ s.1 with lowerdirs := parent.upperdir :: lowerdirs }, fs2)

/-- The invariant the data model states for an overlay: its lowerdirs hold neither its own
upperdir nor its own workdir. -/
def LowerdirsClean (o : Overlay) : Prop :=
  o.upperdir ∉ o.lowerdirs ∧ o.workdir ∉ o.lowerdirs

/-- Model of `Overlay::getOldestSnapshot`: the id of the last lowerdir that carries one,
else the id of the upperdir. -/
def getOldestSnapshot (cfg : Config) (o : Overlay) : String :=
  match o.lowerdirs.reverse.find? (fun l => decide (getIdOfOverlayDir cfg l ≠ "")) with
  | some l => getIdOfOverlayDir cfg l
  | none => getIdOfOverlayDir cfg o.upperdir

/-- The loop of `Overlay::updateMountDirs`: the lowerdirs, each moved below `pfx`, joined with
colons; the separator is put in only when the text so far is not empty. -/
def lowerOption (o : Overlay) (pfx : String) : String :=
  o.lowerdirs.foldl
    (fun lower lowerdir =>
      (if lower = "" then lower else lower ++ ":") ++ pathAppend pfx (relative_path lowerdir))
    ""

/-- Model of `Overlay::updateMountDirs(mount, pfx)`: the lowerdirs, each moved below `pfx`,
are joined with colons into the `lowerdir` option; `upperdir` and `workdir` are set too. -/
def updateMountDirs (o : Overlay) (fs : FileSystem) (mount : Mount) (pfx : String) :
    Mount × Except Exception Unit :=
  match mount.setOption fs "lowerdir" (lowerOption o pfx) with
  | (m1, Except.error e) => (m1, Except.error e)
  | (m1, Except.ok _) =>
    match m1.setOption fs "upperdir" (pathAppend pfx (relative_path o.upperdir)) with
    | (m2, Except.error e) => (m2, Except.error e)
    | (m2, Except.ok _) => m2.setOption fs "workdir" (pathAppend pfx (relative_path o.workdir))

/-- The option string `updateMountDirs` makes of the option string `opts`. -/
def overlayOptions (o : Overlay) (pfx : String) (opts : List OptItem) : List OptItem :=
  mnt_optstr_set_option
    (mnt_optstr_set_option
      (mnt_optstr_set_option opts "lowerdir" (lowerOption o pfx))
      "upperdir" (pathAppend pfx (relative_path o.upperdir)))
    "workdir" (pathAppend pfx (relative_path o.workdir))

/-- The two changes `Overlay::sync` makes to the lowerdirs of the overlay of the oldest
snapshot: the last entry is moved below the root of that snapshot, then the overlay's own
upperdir is put in front.  Writing through `rbegin()` of an empty vector is undefined:
`none`. -/
def syncStack (root : String) (oldestOvl : Overlay) : Option Overlay :=
  match oldestOvl.lowerdirs.getLast? with
  | none => none
  | some last =>
    some { oldestOvl with
      lowerdirs := oldestOvl.upperdir ::
        (oldestOvl.lowerdirs.dropLast ++ [pathAppend root (relative_path last)]) }

/-- The command line `Overlay::sync` hands to `Util::exec`. -/
def rsyncCommand (staging snapshot : String) : String :=
  "rsync --quiet --archive --inplace --xattrs --exclude=\x27/fstab\x27 --filter=\x27-x security.selinux\x27 --acls --delete "
    ++ pathAppend staging "etc" ++ "/ " ++ snapshot ++ "/etc"

/-- Model of the body of `Overlay::sync(snapshot)`.  The first component is the state in
which the local object `oldestEtc` is left; its destructor (`Mount.destroy`) runs when the
function is left.  The other local `Mount`, `currentEtc`, is never mounted. -/
def sync (cfg : Config) (k : Kernel) (fs : FileSystem) (o : Overlay) (snapshot : String) :
    Mount × FileSystem × List Event × Except Exception Unit :=
  let currentEtc := Mount.new "/etc" Mount.defaultFlags
  let oldestSnapId := getOldestSnapshot cfg o
  let root := cfg.snapRoot oldestSnapId
  let oldestEtc := (Mount.new "/etc" Mount.defaultFlags).setTabSource (pathAppend (pathAppend root "etc") "fstab")
  match oldestEtc.getOption cfg.optClass fs "upperdir" with
  | (e1, Except.error e) => (e1, fs, [], Except.error e)
  | (e1, Except.ok oldestUpper) =>
    match currentEtc.getOption cfg.optClass fs "upperdir" with
    | (_, Except.error e) => (e1, fs, [], Except.error e)
    | (_, Except.ok currentUpper) =>
      if oldestUpper = currentUpper then (e1, fs, [], Except.ok ())
      else
        let built := Overlay.new cfg fs oldestSnapId
        match syncStack root built.1 with
        | none => (e1, built.2, [], Except.error Exception.undefined)
        | some oldestOvl =>
          match updateMountDirs oldestOvl built.2 e1 cfg.defaultPrefix with
          | (e2, Except.error e) => (e2, built.2, [], Except.error e)
          | (e2, Except.ok _) =>
            match e2.removeOption built.2 "upperdir" with
            | (e3, Except.error e) => (e3, built.2, [], Except.error e)
            | (e3, Except.ok _) =>
              let staging := pathAppend (parent_path oldestOvl.upperdir) "sync"
              match e3.mount k built.2 staging with
              | (e4, fs2, evs, Except.error e) => (e4, fs2, evs, Except.error e)
              | (e4, fs2, evs, Except.ok _) =>
                (e4, fs2, evs ++ [Event.exec (rsyncCommand staging snapshot)],
                  if k.execFails (rsyncCommand staging snapshot) = true then
                    Except.error Exception.execFailed
                  else Except.ok ())

end Overlay

/-! ## A small world used for the worked examples -/

/-- The part of libmount's option maps that the examples touch: `defaults` is a comment; `ro`
and `rw` without a value are VFS flags; a name that starts with `x-` is a userspace option;
names the maps do not know (`lowerdir`, `upperdir`, `workdir`) are filesystem-specific. -/
def demoOptClass (o : OptItem) : OptClass :=
  if o.1 = "defaults" then OptClass.ignored
  else if (o.1 = "ro" ∨ o.1 = "rw") ∧ (o.2 = none ∨ o.2 = some "") then OptClass.vfs
  else if ['x', '-'].isPrefixOf o.1.data = true then OptClass.user
  else OptClass.fs

/-- Configuration of the example world. -/
def demoConfig : Config :=
  { overlayDir := "/var/lib/overlay", sysroot := "/sysroot",
    snapRoot := (fun s => "/.snapshots/" ++ s ++ "/snapshot"), defaultPrefix := "/",
    optClass := demoOptClass }

/-- The `/etc` record in the fstab of snapshot 3, whose overlay has the layers of the
snapshots 2, 1 and 0 below it. -/
def demoEtc3 : MntFs :=
  { source := some "overlay", target := some "/etc", fstype := some "overlay",
    optstr := some [("defaults", none),
      ("lowerdir", some "/sysroot/var/lib/overlay/2/etc:/sysroot/var/lib/overlay/1/etc:/sysroot/var/lib/overlay/0/etc"),
      ("upperdir", some "/sysroot/var/lib/overlay/3/etc"),
      ("workdir", some "/sysroot/var/lib/overlay/3/work-etc")],
    id := 0, parent := 0 }

/-- The `/etc` record of snapshot 0, the first one: its only lower layer is the `/etc` of the
root file system. -/
def demoEtc0 : MntFs :=
  { source := some "overlay", target := some "/etc", fstype := some "overlay",
    optstr := some [("defaults", none),
      ("lowerdir", some "/sysroot/etc"),
      ("upperdir", some "/sysroot/var/lib/overlay/0/etc"),
      ("workdir", some "/sysroot/var/lib/overlay/0/work-etc")],
    id := 0, parent := 0 }

/-- A record of the example fstab for `/mnt/x`. -/
def demoFstabX : MntFs :=
  { source := some "/dev/vdb1", target := some "/mnt/x", fstype := some "ext4",
    optstr := some [("defaults", none)], id := 0, parent := 0 }

/-- File system of the example world: the system runs snapshot 3; the snapshots 2 and 0
exist, snapshot 1 has been deleted; the overlays of the snapshots 3 and 0 hold their
fstab. -/
def demoFs : FileSystem := fun p =>
  if p = "/etc/fstab" then some (Node.file (some [demoFstabX, demoEtc3]))
  else if p = "/var/lib/overlay/3/etc/fstab" then some (Node.file (some [demoEtc3]))
  else if p = "/var/lib/overlay/3/etc" then some Node.dir
  else if p = "/var/lib/overlay/0/etc/fstab" then some (Node.file (some [demoEtc0]))
  else if p = "/.snapshots/0/snapshot/etc/fstab" then some (Node.file (some [demoEtc0]))
  else if p = "/.snapshots/2/snapshot" then some Node.dir
  else if p = "/.snapshots/0/snapshot" then some Node.dir
  else none

/-- A kernel in which every mount, unmount and command succeeds, and in which the mount call
leaves the record as it was given. -/
def demoKernel : Kernel :=
  { mountFails := (fun _ _ => false), umountFails := (fun _ => false),
    execFails := (fun _ => false), prepared := (fun r _ => r) }

/-- The example world at the time snapshot 0 is the running system: `/etc/fstab` holds the
`/etc` record of snapshot 0. -/
def demoFsSynced : FileSystem := fun p =>
  if p = "/etc/fstab" then some (Node.file (some [demoEtc0])) else demoFs p

/-- An fstab record whose option string names `x-systemd.requires` twice. -/
def demoDupRecord : MntFs :=
  { source := some "/dev/vdb2", target := some "/data", fstype := some "ext4",
    optstr := some [("ro", none), ("x-systemd.requires", some "a.mount"),
      ("x-systemd.requires", some "b.mount")],
    id := 0, parent := 0 }

/-- A file system whose fstab holds just that record. -/
def demoDupFs : FileSystem := fun p =>
  if p = "/etc/fstab" then some (Node.file (some [demoDupRecord])) else none

/-- A record of the live mount table. -/
def liveRecord (id parent : Nat) (target : String) : MntFs :=
  { source := some "/dev/vda2", target := some target, fstype := some "btrfs",
    optstr := some [("rw", none)], id := id, parent := parent }

/-- A live mount table: below `/mnt/x` are mounted `/mnt/x/a`, below that `/mnt/x/a/b`. -/
def demoMtab : List MntFs :=
  [liveRecord 1 1 "/", liveRecord 20 1 "/mnt/x", liveRecord 25 21 "/mnt/x/a/b",
    liveRecord 21 20 "/mnt/x/a", liveRecord 30 1 "/home"]

/-- A `Mount` object for `/mnt/x` on which `mount` has been called with an empty prefix. -/
def demoMounted : Mount :=
  { mnt_cxt := true, mnt_table := [], mnt_fs := some (liveRecord 0 0 "/mnt/x"),
    target := "/mnt/x", flags := 0, tabsource := "" }

/-! ## Notions used in the proofs about the unmount order -/

namespace Mount

/-- A record the scan of `mnt_table_next_child_fs` may return: a child of `pid` beyond the
child returned last. -/
def Eligible (bw : Bool) (pid last : Nat) (x : MntFs) : Prop :=
  x.parent = pid ∧ x.id ≠ pid ∧ (last = 0 ∨ if bw = true then x.id < last else last < x.id)

/-- Record `a` is at least as near to the start of the iteration as `b`. -/
def Nearer (bw : Bool) (a b : MntFs) : Prop :=
  if bw = true then b.id ≤ a.id else a.id ≤ b.id

/-- What the scan has established once it has walked list `l` from the candidate `acc` and
holds `r`. -/
def ScanPost (bw : Bool) (pid last : Nat) (l : List MntFs) (acc r : Option MntFs) : Prop :=
  match r with
  | none => acc = none ∧ ∀ x ∈ l, ¬ Eligible bw pid last x
  | some c => (acc = some c ∨ (c ∈ l ∧ Eligible bw pid last c)) ∧
      (∀ x ∈ l, Eligible bw pid last x → Nearer bw c x) ∧
      (∀ a, acc = some a → Nearer bw c a)

instance instDecidableEligible (bw : Bool) (pid last : Nat) (x : MntFs) :
    Decidable (Eligible bw pid last x) := by
  unfold Eligible; infer_instance

/-- Every occurrence of a record in `calls` comes after all children it has in the table. -/
def ChildrenFirst (tb calls : List MntFs) : Prop :=
  ∀ (a d : MntFs) (l1 l3 : List MntFs), d ∈ tb → IsChild a d → calls = l1 ++ a :: l3 → d ∈ l1

/-- What a run of `umountRecursive` on record `e` does, given at least `N` units of fuel. -/
def NodeSpec (bw : Bool) (tb : List MntFs) (e : MntFs) (calls : List MntFs) (N : Nat) : Prop :=
  (∀ fuel, N ≤ fuel → ∀ k : Kernel,
      umountRecursive k true bw tb true fuel (some e) = some (umountEvents k calls)) ∧
    ChildrenFirst tb calls ∧ calls.getLast? = some e ∧ ∀ x ∈ calls, x ∈ tb

/-- The id libmount remembers of the child returned last, 0 for none. -/
def lastId (last : Option MntFs) : Nat :=
  match last with
  | none => 0
  | some l => l.id

end Mount

/-! ## The chain `create` is to build, in the words of the specification -/

namespace Overlay

/-- The entry carries a snapshot id and that snapshot still exists: the root the snapshot
backend reports for the id is a directory. -/
def snapshotExists (cfg : Config) (fs : FileSystem) (lowerdir : String) : Bool :=
  decide (getIdOfOverlayDir cfg lowerdir ≠ "") &&
    is_directory fs (cfg.snapRoot (getIdOfOverlayDir cfg lowerdir))

/-- The chain as the specification words it: the parent chain `P` up to and including the last
entry whose snapshot still exists (nothing when there is none), followed by the entries behind
it that carry no snapshot id, in their order. -/
def expectedChain (cfg : Config) (fs : FileSystem) (P : List String) : List String :=
  P.rdropWhile (fun l => !snapshotExists cfg fs l) ++
    (P.drop (P.rdropWhile (fun l => !snapshotExists cfg fs l)).length).filter
      (fun l => decide (getIdOfOverlayDir cfg l = ""))

end Overlay

/-- The `/etc` record in the fstab of snapshot 5: its overlay has below it the layers of the
snapshots 2 and 1, the compatibility location and the `/etc` of the root file system. -/
def demoEtc5 : MntFs :=
  { source := some "overlay", target := some "/etc", fstype := some "overlay",
    optstr := some [("defaults", none),
      ("lowerdir", some "/sysroot/var/lib/overlay/2/etc:/sysroot/var/lib/overlay/1/etc:/sysroot/sysroot/var/lib/overlay/etc:/sysroot/etc"),
      ("upperdir", some "/sysroot/var/lib/overlay/5/etc"),
      ("workdir", some "/sysroot/var/lib/overlay/5/work-etc")],
    id := 0, parent := 0 }

/-- The example world with the overlay of snapshot 5 added. -/
def demoFsMixed : FileSystem := fun p =>
  if p = "/var/lib/overlay/5/etc/fstab" then some (Node.file (some [demoEtc5])) else demoFs p

end TransactionalUpdate

/-! # Theorems -/

namespace TransactionalUpdate

/-! ## Comparison of paths -/

/-- What `dropWhile` leaves is no longer than the list. -/
theorem length_dropWhile_le_length {α : Type} (p : α → Bool) :
    ∀ l : List α, (l.dropWhile p).length ≤ l.length := by
  intro l
  induction l with
  | nil => simp
  | cons x l ih =>
    rw [List.dropWhile_cons]
    split
    · simp only [List.length_cons]; omega
    · exact le_refl _

/-- What follows a path segment is shorter than the path. -/
theorem next_path_segment_length :
    ∀ (a s rest : List Char), next_path_segment a = some (s, rest) → rest.length < a.length := by
  intro a
  induction a with
  | nil => intro s rest h; simp [next_path_segment] at h
  | cons c tl ih =>
    intro s rest h
    unfold next_path_segment at h
    split at h
    · have := ih s rest h
      simp only [List.length_cons]
      omega
    · simp only [Option.some.injEq, Prod.mk.injEq] at h
      obtain ⟨-, rfl⟩ := h
      have := length_dropWhile_le_length (fun d => d != '/') tl
      simp only [List.length_cons]
      omega

/-- The loop of `streq_paths` gives the same answer for every number of passes beyond the
length of the first path: the bound is never what ends it. -/
theorem streqPathsLoop_fuel :
    ∀ (n m : Nat) (a b : List Char), a.length < n → a.length < m →
      streqPathsLoop n a b = streqPathsLoop m a b := by
  intro n
  induction n with
  | zero => intro m a b h; omega
  | succ n ih =>
    intro m a b hn hm
    obtain ⟨m, rfl⟩ : ∃ k, m = k + 1 := ⟨m - 1, by omega⟩
    unfold streqPathsLoop
    cases ha : next_path_segment a with
    | none => cases next_path_segment b <;> rfl
    | some pa =>
      obtain ⟨sa, ra⟩ := pa
      cases hb : next_path_segment b with
      | none => rfl
      | some pb =>
        obtain ⟨sb, rb⟩ := pb
        simp only
        have hlen := next_path_segment_length a sa ra ha
        by_cases hs : sa = sb
        · rw [if_pos hs, if_pos hs]
          exact ih m ra rb (by omega) (by omega)
        · rw [if_neg hs, if_neg hs]

/-- The answer of `streq_paths` is the answer of its loop for every number of passes beyond
the length of the first path. -/
theorem streq_paths_eq_loop (a b : String) (n : Nat) (h : a.data.length < n) :
    streq_paths a b = streqPathsLoop n a.data b.data :=
  streqPathsLoop_fuel _ _ _ _ (by omega) h

/-! ## Overlay::create -/

/-- One pass of the loop of `create` over an entry that carries a snapshot id, the lowerdirs
built so far being the handled entries cut after the last one whose snapshot exists. -/
theorem createStep_of_id (cfg : Config) (fs : FileSystem) (P pre rest : List String) (x : String)
    (hP : P = pre ++ x :: rest) (hx : Overlay.getIdOfOverlayDir cfg x ≠ "") :
    Overlay.createStep cfg fs P
        (pre.rdropWhile (fun l => !is_directory fs (cfg.snapRoot (Overlay.getIdOfOverlayDir cfg l))))
        pre.length x =
      (pre ++ [x]).rdropWhile
        (fun l => !is_directory fs (cfg.snapRoot (Overlay.getIdOfOverlayDir cfg l))) := by
  have hne : pre.rdropWhile
      (fun l => !is_directory fs (cfg.snapRoot (Overlay.getIdOfOverlayDir cfg l))) ≠ P := by
    intro h
    have h1 := (List.rdropWhile_prefix
      (fun l => !is_directory fs (cfg.snapRoot (Overlay.getIdOfOverlayDir cfg l)))
      (l := pre)).length_le
    rw [h, hP] at h1
    simp at h1
  unfold Overlay.createStep
  rw [if_neg (fun h => hne h.2)]
  simp only [hx, if_false]
  by_cases hd : is_directory fs (cfg.snapRoot (Overlay.getIdOfOverlayDir cfg x)) = true
  · rw [if_pos hd, List.rdropWhile_concat_neg _ _ _ (by simp [hd]), hP,
      List.take_append_eq_append_take]
    simp
  · rw [if_neg hd, List.rdropWhile_concat_pos _ _ _ (by simpa using hd)]

/-- The loop of `create` over a chain whose entries all carry a snapshot id. -/
theorem createLoop_of_ids (cfg : Config) (fs : FileSystem) (P : List String)
    (hids : ∀ l ∈ P, Overlay.getIdOfOverlayDir cfg l ≠ "") :
    ∀ (rest pre : List String), P = pre ++ rest →
      Overlay.createLoop cfg fs P rest pre.length
          (pre.rdropWhile (fun l => !is_directory fs (cfg.snapRoot (Overlay.getIdOfOverlayDir cfg l)))) =
        P.rdropWhile (fun l => !is_directory fs (cfg.snapRoot (Overlay.getIdOfOverlayDir cfg l))) := by
  intro rest
  induction rest with
  | nil => intro pre hP; simp [Overlay.createLoop, hP]
  | cons x rest ih =>
    intro pre hP
    have hx : Overlay.getIdOfOverlayDir cfg x ≠ "" := hids x (by simp [hP])
    rw [Overlay.createLoop, createStep_of_id cfg fs P pre rest x hP hx]
    have := ih (pre ++ [x]) (by simp [hP])
    simpa using this

/-- C1, as stated, fails: in the example world the parent (snapshot 3) has the lowerdirs
`[L0, L1, L2]` of the snapshots 2, 1, 0, the snapshot of `L1` is gone and those of `L0` and
`L2` exist; `create("3")` on the fresh overlay of snapshot 4 gives
`[parentUpperdir, L0, L1, L2]`, so `L2` is in the result. -/
theorem create_keeps_layer_behind_deleted_snapshot :
    (Overlay.new demoConfig demoFs "4").1.lowerdirs = [] ∧
    (Overlay.new demoConfig demoFs "3").1.upperdir = "/var/lib/overlay/3/etc" ∧
    (Overlay.new demoConfig demoFs "3").1.lowerdirs =
      ["/var/lib/overlay/2/etc", "/var/lib/overlay/1/etc", "/var/lib/overlay/0/etc"] ∧
    is_directory (Overlay.create demoConfig "3" (Overlay.new demoConfig demoFs "4")).2
      (demoConfig.snapRoot (Overlay.getIdOfOverlayDir demoConfig "/var/lib/overlay/2/etc")) = true ∧
    is_directory (Overlay.create demoConfig "3" (Overlay.new demoConfig demoFs "4")).2
      (demoConfig.snapRoot (Overlay.getIdOfOverlayDir demoConfig "/var/lib/overlay/1/etc")) = false ∧
    is_directory (Overlay.create demoConfig "3" (Overlay.new demoConfig demoFs "4")).2
      (demoConfig.snapRoot (Overlay.getIdOfOverlayDir demoConfig "/var/lib/overlay/0/etc")) = true ∧
    (Overlay.create demoConfig "3" (Overlay.new demoConfig demoFs "4")).1.lowerdirs =
      ["/var/lib/overlay/3/etc", "/var/lib/overlay/2/etc", "/var/lib/overlay/1/etc",
        "/var/lib/overlay/0/etc"] ∧
    (Overlay.create demoConfig "3" (Overlay.new demoConfig demoFs "4")).1.lowerdirs ≠
      ["/var/lib/overlay/3/etc", "/var/lib/overlay/2/etc", "/var/lib/overlay/1/etc"] := by
  decide

/-- C1, amended: for an overlay whose lowerdirs are empty before the call and a parent whose
lowerdirs all carry a snapshot id, `create(base)` yields the parent's upperdir followed by the
parent's chain cut after the last entry whose snapshot still exists (checked in the file
system as `create` leaves it); entries of deleted snapshots in front of that entry stay.  In
particular a chain `[L0, L1, L2]` with the snapshot of `L2` present comes back whole, whatever
became of the snapshot of `L1`. -/
theorem create_lowerdirs_of_snapshot_chain (cfg : Config) (base : String) (o : Overlay)
    (fs : FileSystem) (hbase : base ≠ "") (hlow : o.lowerdirs = [])
    (hids : ∀ l ∈ (Overlay.new cfg fs base).1.lowerdirs, Overlay.getIdOfOverlayDir cfg l ≠ "") :
    (Overlay.create cfg base (o, fs)).1.lowerdirs =
        (Overlay.new cfg fs base).1.upperdir ::
          ((Overlay.new cfg fs base).1.lowerdirs).rdropWhile
            (fun l => !is_directory (Overlay.create cfg base (o, fs)).2
              (cfg.snapRoot (Overlay.getIdOfOverlayDir cfg l))) ∧
      ∀ L0 L1 L2 : String, (Overlay.new cfg fs base).1.lowerdirs = [L0, L1, L2] →
        is_directory (Overlay.create cfg base (o, fs)).2
          (cfg.snapRoot (Overlay.getIdOfOverlayDir cfg L2)) = true →
        (Overlay.create cfg base (o, fs)).1.lowerdirs =
          [(Overlay.new cfg fs base).1.upperdir, L0, L1, L2] := by
  have hmain : (Overlay.create cfg base (o, fs)).1.lowerdirs =
        (Overlay.new cfg fs base).1.upperdir ::
          ((Overlay.new cfg fs base).1.lowerdirs).rdropWhile
            (fun l => !is_directory (Overlay.create cfg base (o, fs)).2
              (cfg.snapRoot (Overlay.getIdOfOverlayDir cfg l))) := by
    have h := createLoop_of_ids cfg
      (create_directories (remove_all (Overlay.new cfg fs base).2 o.upperdir) o.upperdir)
      (Overlay.new cfg fs base).1.lowerdirs hids (Overlay.new cfg fs base).1.lowerdirs [] rfl
    simp only [List.rdropWhile_nil, List.length_nil] at h
    simp only [Overlay.create, if_neg hbase, hlow]
    rw [h]
  refine ⟨hmain, ?_⟩
  intro L0 L1 L2 hP hL2
  rw [hmain, hP]
  have : [L0, L1, L2] = [L0, L1] ++ [L2] := rfl
  rw [this, List.rdropWhile_concat_neg _ _ _ (by simp [hL2])]

/-- Witness for `create_lowerdirs_of_snapshot_chain`: the example world. -/
theorem create_lowerdirs_of_snapshot_chain_witness :
    ("3" ≠ "" ∧ (Overlay.new demoConfig demoFs "4").1.lowerdirs = [] ∧
      ∀ l ∈ (Overlay.new demoConfig demoFs "3").1.lowerdirs,
        Overlay.getIdOfOverlayDir demoConfig l ≠ "") ∧
    (Overlay.create demoConfig "3" ((Overlay.new demoConfig demoFs "4").1, demoFs)).1.lowerdirs =
      (Overlay.new demoConfig demoFs "3").1.upperdir ::
        ((Overlay.new demoConfig demoFs "3").1.lowerdirs).rdropWhile
          (fun l => !is_directory
            (Overlay.create demoConfig "3" ((Overlay.new demoConfig demoFs "4").1, demoFs)).2
            (demoConfig.snapRoot (Overlay.getIdOfOverlayDir demoConfig l))) :=
  ⟨⟨by decide, by decide, by decide⟩,
    (create_lowerdirs_of_snapshot_chain demoConfig "3" (Overlay.new demoConfig demoFs "4").1 demoFs
      (by decide) (by decide) (by decide)).1⟩

/-- C2, as stated, fails: the overlay object of the existing snapshot 3 has read three
lowerdirs from its fstab and its upperdir holds that fstab; after `create()` without a base
the lowerdirs are not empty and the file is still below the upperdir. -/
theorem create_without_base_keeps_lowerdirs_and_upperdir :
    (Overlay.new demoConfig demoFs "3").1.upperdir = "/var/lib/overlay/3/etc" ∧
    isUnder "/var/lib/overlay/3/etc" "/var/lib/overlay/3/etc/fstab" = true ∧
    (Overlay.create demoConfig "" (Overlay.new demoConfig demoFs "3")).1.lowerdirs ≠ [] ∧
    (Overlay.create demoConfig "" (Overlay.new demoConfig demoFs "3")).2
      "/var/lib/overlay/3/etc/fstab" = some (Node.file (some [demoEtc3])) := by
  decide

/-- A path below a directory is neither that directory nor above it. -/
theorem not_above_of_isUnder (p q : String) (h : isUnder p q = true) :
    q ≠ p ∧ isUnder q p = false := by
  have hlen : p.data.length + 1 ≤ q.data.length := by
    have := (List.isPrefixOf_iff_prefix.1 h).length_le
    simpa only [List.length_append, List.length_singleton] using this
  constructor
  · intro hq
    rw [hq] at hlen
    omega
  · cases hqp : isUnder q p with
    | false => rfl
    | true =>
      have := (List.isPrefixOf_iff_prefix.1 hqp).length_le
      simp only [List.length_append, List.length_singleton] at this
      omega

/-- C2, amended: `create()` without a base returns at once; the object (its lowerdirs as the
constructor read them, empty or not) and every path of the file system, the upperdir and what
lies below it included, are what they were before the call.  Only with a base is the upperdir
removed and made anew: then it is a directory with nothing below it. -/
theorem create_without_base_changes_nothing (cfg : Config) (o : Overlay) (fs : FileSystem) :
    (Overlay.create cfg "" (o, fs)).1 = o ∧ (∀ p, (Overlay.create cfg "" (o, fs)).2 p = fs p) ∧
    ∀ base, base ≠ "" → o.upperdir ≠ "" →
      is_directory (Overlay.create cfg base (o, fs)).2 o.upperdir = true ∧
      ∀ q, isUnder o.upperdir q = true → (Overlay.create cfg base (o, fs)).2 q = none := by
  refine ⟨by simp [Overlay.create], by simp [Overlay.create], ?_⟩
  intro base hbase hup
  simp only [Overlay.create, if_neg hbase]
  constructor
  · simp [is_directory, create_directories, remove_all, hup]
  · intro q hq
    obtain ⟨hne, hnot⟩ := not_above_of_isUnder o.upperdir q hq
    simp [create_directories, remove_all, hne, hnot, hq]

/-- Witness for `create_without_base_changes_nothing`: with base 3, the overlay of snapshot 4
gets an upperdir that is a directory. -/
theorem create_without_base_changes_nothing_witness :
    ("3" ≠ "" ∧ (Overlay.new demoConfig demoFs "4").1.upperdir ≠ "") ∧
    is_directory
      (Overlay.create demoConfig "3" ((Overlay.new demoConfig demoFs "4").1, demoFs)).2
      (Overlay.new demoConfig demoFs "4").1.upperdir = true :=
  ⟨⟨by decide, by decide⟩,
    ((create_without_base_changes_nothing demoConfig (Overlay.new demoConfig demoFs "4").1 demoFs).2.2
      "3" (by decide) (by decide)).1⟩

/-! ## The lowerdirs invariant -/

/-- Whatever one pass of the loop of `create` leaves in the lowerdirs was there before, or is
an entry of the parent, or is the entry handled. -/
theorem createStep_mem (cfg : Config) (fs : FileSystem) (P cur : List String) (i : Nat)
    (l x : String) (hx : x ∈ Overlay.createStep cfg fs P cur i l) : x ∈ cur ∨ x ∈ P ∨ x = l := by
  simp only [Overlay.createStep] at hx
  split_ifs at hx with h1 h2 h3
  · rcases List.mem_append.1 hx with h | h
    · exact Or.inl h
    · exact Or.inr (Or.inr (by simpa using h))
  · rcases List.mem_append.1 hx with h | h
    · exact Or.inl h
    · exact Or.inr (Or.inr (by simpa using h))
  · exact Or.inr (Or.inl (List.mem_of_mem_take hx))
  · exact Or.inl hx

/-- Whatever the loop of `create` leaves in the lowerdirs was there before or is an entry of
the parent. -/
theorem createLoop_mem (cfg : Config) (fs : FileSystem) (P : List String) (x : String) :
    ∀ (rest : List String) (i : Nat) (cur : List String), (∀ l ∈ rest, l ∈ P) →
      x ∈ Overlay.createLoop cfg fs P rest i cur → x ∈ cur ∨ x ∈ P := by
  intro rest
  induction rest with
  | nil => intro i cur _ hx; exact Or.inl (by simpa [Overlay.createLoop] using hx)
  | cons l rest ih =>
    intro i cur hsub hx
    rw [Overlay.createLoop] at hx
    rcases ih (i + 1) _ (fun y hy => hsub y (List.mem_cons_of_mem _ hy)) hx with h | h
    · rcases createStep_mem cfg fs P cur i l x h with h | h | h
      · exact Or.inl h
      · exact Or.inr h
      · exact Or.inr (h ▸ hsub l (List.mem_cons_self _ _))
    · exact Or.inr h

/-- C3, as stated, fails: in the example world `sync` runs on the overlay of snapshot 3, whose
oldest referenced snapshot is 0.  The overlay object built for snapshot 0 has its own upperdir
`/var/lib/overlay/0/etc` as first lowerdir when `updateMountDirs` produces the mount options,
and the `lowerdir` option of the record that is mounted starts with it. -/
theorem sync_stack_holds_own_upperdir :
    Overlay.getOldestSnapshot demoConfig (Overlay.new demoConfig demoFs "3").1 = "0" ∧
    Overlay.syncStack (demoConfig.snapRoot "0") (Overlay.new demoConfig demoFs "0").1 =
      some { upperdir := "/var/lib/overlay/0/etc", workdir := "/var/lib/overlay/0/work-etc",
             lowerdirs := ["/var/lib/overlay/0/etc", "/.snapshots/0/snapshot/etc"] } ∧
    "/var/lib/overlay/0/etc" ∈ ["/var/lib/overlay/0/etc", "/.snapshots/0/snapshot/etc"] ∧
    (Overlay.sync demoConfig demoKernel demoFs (Overlay.new demoConfig demoFs "3").1
        "/.snapshots/4/snapshot").2.2.1 =
      [Event.mount
        { source := some "overlay", target := some "/var/lib/overlay/0/sync/etc",
          fstype := some "overlay",
          optstr := some [("defaults", none),
            ("lowerdir", some "/var/lib/overlay/0/etc:/.snapshots/0/snapshot/etc"),
            ("workdir", some "/var/lib/overlay/0/work-etc")],
          id := 0, parent := 0 } 0,
       Event.exec (Overlay.rsyncCommand "/var/lib/overlay/0/sync" "/.snapshots/4/snapshot")] := by
  set_option maxRecDepth 100000 in decide

/-- C3, amended: `create(base)` keeps the lowerdirs free of the object's own upperdir and
workdir when they were free of them before, the parent's upperdir is neither of the two, and
the parent's chain holds neither.  `sync` does not keep them free: the overlay object it builds
for the oldest snapshot (same upperdir and workdir as constructed) has its own upperdir as
first lowerdir at the point where the mount options are produced. -/
theorem create_keeps_lowerdirs_clean (cfg : Config) (base : String) (o : Overlay)
    (fs : FileSystem) (hclean : Overlay.LowerdirsClean o)
    (hup : (Overlay.new cfg fs base).1.upperdir ≠ o.upperdir)
    (hwork : (Overlay.new cfg fs base).1.upperdir ≠ o.workdir)
    (hparent : o.upperdir ∉ (Overlay.new cfg fs base).1.lowerdirs ∧
      o.workdir ∉ (Overlay.new cfg fs base).1.lowerdirs) :
    Overlay.LowerdirsClean (Overlay.create cfg base (o, fs)).1 ∧
    ∀ (root : String) (ovl stack : Overlay), Overlay.syncStack root ovl = some stack →
      stack.upperdir = ovl.upperdir ∧ stack.workdir = ovl.workdir ∧
      stack.lowerdirs.head? = some stack.upperdir ∧ ¬ Overlay.LowerdirsClean stack := by
  constructor
  · by_cases hbase : base = ""
    · simpa [Overlay.create, hbase] using hclean
    · have hloop : ∀ x, x ∈ (Overlay.create cfg base (o, fs)).1.lowerdirs →
          x = (Overlay.new cfg fs base).1.upperdir ∨ x ∈ o.lowerdirs ∨
            x ∈ (Overlay.new cfg fs base).1.lowerdirs := by
        intro x hx
        simp only [Overlay.create, if_neg hbase, List.mem_cons] at hx
        rcases hx with h | h
        · exact Or.inl h
        · exact Or.inr (createLoop_mem cfg _ _ x _ 0 _ (fun _ h => h) h)
      have hu : (Overlay.create cfg base (o, fs)).1.upperdir = o.upperdir := by
        simp [Overlay.create, hbase]
      have hw : (Overlay.create cfg base (o, fs)).1.workdir = o.workdir := by
        simp [Overlay.create, hbase]
      refine ⟨fun h => ?_, fun h => ?_⟩
      · rw [hu] at h
        rcases hloop _ h with h | h | h
        · exact hup h.symm
        · exact hclean.1 h
        · exact hparent.1 h
      · rw [hw] at h
        rcases hloop _ h with h | h | h
        · exact hwork h.symm
        · exact hclean.2 h
        · exact hparent.2 h
  · intro root ovl stack h
    unfold Overlay.syncStack at h
    split at h
    · exact absurd h (by simp)
    · simp only [Option.some.injEq] at h
      subst h
      refine ⟨rfl, rfl, rfl, fun hc => hc.1 (List.mem_cons_self _ _)⟩

/-- Witness for `create_keeps_lowerdirs_clean`: the fresh overlay of snapshot 4 with base 3
in the example world, and the overlay `sync` builds for snapshot 0. -/
theorem create_keeps_lowerdirs_clean_witness :
    (Overlay.LowerdirsClean (Overlay.new demoConfig demoFs "4").1 ∧
      (Overlay.new demoConfig demoFs "3").1.upperdir ≠ (Overlay.new demoConfig demoFs "4").1.upperdir ∧
      (Overlay.new demoConfig demoFs "3").1.upperdir ≠ (Overlay.new demoConfig demoFs "4").1.workdir ∧
      (Overlay.new demoConfig demoFs "4").1.upperdir ∉ (Overlay.new demoConfig demoFs "3").1.lowerdirs ∧
      (Overlay.new demoConfig demoFs "4").1.workdir ∉ (Overlay.new demoConfig demoFs "3").1.lowerdirs) ∧
    Overlay.LowerdirsClean
      (Overlay.create demoConfig "3" ((Overlay.new demoConfig demoFs "4").1, demoFs)).1 ∧
    ¬ Overlay.LowerdirsClean
      { upperdir := "/var/lib/overlay/0/etc", workdir := "/var/lib/overlay/0/work-etc",
        lowerdirs := ["/var/lib/overlay/0/etc", "/.snapshots/0/snapshot/etc"] } :=
  ⟨⟨⟨by decide, by decide⟩, by decide, by decide, by decide, by decide⟩,
    (create_keeps_lowerdirs_clean demoConfig "3" (Overlay.new demoConfig demoFs "4").1 demoFs
      ⟨by decide, by decide⟩ (by decide) (by decide) ⟨by decide, by decide⟩).1,
    ((create_keeps_lowerdirs_clean demoConfig "3" (Overlay.new demoConfig demoFs "4").1 demoFs
      ⟨by decide, by decide⟩ (by decide) (by decide) ⟨by decide, by decide⟩).2
      (demoConfig.snapRoot "0") (Overlay.new demoConfig demoFs "0").1 _ (by decide)).2.2.2⟩

/-! ## Mount::~Mount and Mount::umountRecursive -/

namespace Mount

/-- Being nearer to the start of the iteration is transitive. -/
theorem Nearer.trans {bw : Bool} {a b c : MntFs} (h1 : Nearer bw a b) (h2 : Nearer bw b c) :
    Nearer bw a c := by
  cases bw <;> simp only [Nearer] at * <;> simp at * <;> omega

/-- The scan passes a record that is not eligible or not nearer than the candidate. -/
theorem scanPost_skip (bw : Bool) (pid last : Nat) (fs : MntFs) (rest : List MntFs)
    (acc r : Option MntFs) (h : ScanPost bw pid last rest acc r)
    (hfs : Eligible bw pid last fs → ∃ a, acc = some a ∧ Nearer bw a fs) :
    ScanPost bw pid last (fs :: rest) acc r := by
  cases r with
  | none =>
    obtain ⟨h1, h2⟩ := h
    refine ⟨h1, ?_⟩
    intro x hx
    rcases List.mem_cons.1 hx with rfl | hx
    · intro he
      obtain ⟨a, ha, _⟩ := hfs he
      simp [h1] at ha
    · exact h2 x hx
  | some c =>
    obtain ⟨h1, h2, h3⟩ := h
    refine ⟨?_, ?_, h3⟩
    · rcases h1 with h1 | ⟨h1, h1e⟩
      · exact Or.inl h1
      · exact Or.inr ⟨List.mem_cons_of_mem _ h1, h1e⟩
    · intro x hx he
      rcases List.mem_cons.1 hx with rfl | hx
      · obtain ⟨a, ha, hn⟩ := hfs he
        exact (h3 a ha).trans hn
      · exact h2 x hx he

/-- The scan takes an eligible record that is nearer than the candidate. -/
theorem scanPost_take (bw : Bool) (pid last : Nat) (fs : MntFs) (rest : List MntFs)
    (acc r : Option MntFs) (h : ScanPost bw pid last rest (some fs) r)
    (he : Eligible bw pid last fs) (hacc : ∀ a, acc = some a → Nearer bw fs a) :
    ScanPost bw pid last (fs :: rest) acc r := by
  cases r with
  | none => exact absurd h.1 (by simp)
  | some c =>
    obtain ⟨h1, h2, h3⟩ := h
    have hcf : Nearer bw c fs := h3 fs rfl
    refine ⟨Or.inr ?_, ?_, fun a ha => hcf.trans (hacc a ha)⟩
    · rcases h1 with h1 | ⟨h1, h1e⟩
      · simp only [Option.some.injEq] at h1
        subst h1
        exact ⟨List.mem_cons_self _ _, he⟩
      · exact ⟨List.mem_cons_of_mem _ h1, h1e⟩
    · intro x hx hxe
      rcases List.mem_cons.1 hx with rfl | hx
      · exact hcf
      · exact h2 x hx hxe

/-- The scan of `mnt_table_next_child_fs` returns the eligible record nearest to the start of
the iteration, and none only when no record is eligible. -/
theorem nextChildScan_spec (bw : Bool) (pid last : Nat) :
    ∀ (l : List MntFs) (acc : Option MntFs), (∀ x ∈ l, 0 < x.id) →
      (∀ a, acc = some a → 0 < a.id) →
      ScanPost bw pid last l acc (nextChildScan bw pid last l acc) := by
  intro l
  induction l with
  | nil =>
    intro acc _ _
    cases acc with
    | none => simp [nextChildScan, ScanPost]
    | some a => simp [nextChildScan, ScanPost, Nearer]
  | cons fs rest ih =>
    intro acc hpos hacc
    have hposr : ∀ x ∈ rest, 0 < x.id := fun x hx => hpos x (List.mem_cons_of_mem _ hx)
    have hfs : 0 < fs.id := hpos fs (List.mem_cons_self _ _)
    have ihA := ih acc hposr hacc
    have ihF := ih (some fs) hposr (by intro a ha; simp only [Option.some.injEq] at ha; subst ha; exact hfs)
    simp only [nextChildScan]
    by_cases hp : fs.parent ≠ pid
    · rw [if_pos hp]
      exact scanPost_skip bw pid last fs rest acc _ ihA (fun he => absurd he.1 hp)
    · rw [if_neg hp]
      by_cases hi : fs.id = pid
      · rw [if_pos hi]
        exact scanPost_skip bw pid last fs rest acc _ ihA (fun he => absurd hi he.2.1)
      · rw [if_neg hi]
        have hp' : fs.parent = pid := not_not.1 hp
        cases bw with
        | true =>
          simp only [if_true]
          split_ifs with hc
          · refine scanPost_take true pid last fs rest acc _ ihF ⟨hp', hi, ?_⟩ ?_
            · simpa using hc.1
            · intro a ha
              subst ha
              have := hacc a rfl
              have h2 := hc.2
              simp only [Nearer, if_true]
              simp at h2
              omega
          · refine scanPost_skip true pid last fs rest acc _ ihA ?_
            intro he
            have he3 := he.2.2
            simp only [if_true] at he3
            cases acc with
            | none => exact absurd ⟨he3, Or.inl rfl⟩ hc
            | some a =>
              refine ⟨a, rfl, ?_⟩
              simp only [Nearer, if_true]
              by_contra hlt
              exact hc ⟨he3, Or.inr (by simpa using hlt)⟩
        | false =>
          simp only [Bool.false_eq_true, if_false]
          split_ifs with hc
          · refine scanPost_take false pid last fs rest acc _ ihF ⟨hp', hi, ?_⟩ ?_
            · simpa using hc.1
            · intro a ha
              subst ha
              have := hacc a rfl
              have h2 := hc.2
              simp only [Nearer, Bool.false_eq_true, if_false]
              simp at h2
              omega
          · refine scanPost_skip false pid last fs rest acc _ ihA ?_
            intro he
            have he3 := he.2.2
            simp only [Bool.false_eq_true, if_false] at he3
            cases acc with
            | none => exact absurd ⟨he3, Or.inl rfl⟩ hc
            | some a =>
              refine ⟨a, rfl, ?_⟩
              simp only [Nearer, Bool.false_eq_true, if_false]
              by_contra hlt
              exact hc ⟨he3, Or.inr (by simpa using hlt)⟩

/-- The events of two runs of unmount calls, one after the other. -/
theorem umountEvents_append (k : Kernel) (xs ys : List MntFs) :
    umountEvents k (xs ++ ys) = umountEvents k xs ++ umountEvents k ys := by
  simp [umountEvents]

/-- Two runs of unmount calls in a row keep children in front of their parents when the
first run does and the children of each record of the second run are in the first run or in
front of the record. -/
theorem childrenFirst_append (tb xs ys : List MntFs) (hx : ChildrenFirst tb xs)
    (hy : ∀ (a d : MntFs) (l1 l3 : List MntFs), d ∈ tb → IsChild a d → ys = l1 ++ a :: l3 →
      d ∈ xs ∨ d ∈ l1) :
    ChildrenFirst tb (xs ++ ys) := by
  intro a d l1 l3 hd hc hsplit
  rcases List.append_eq_append_iff.1 hsplit with ⟨a', h1, h2⟩ | ⟨c', h1, h2⟩
  · rw [h1]
    rcases hy a d a' l3 hd hc h2 with h | h
    · exact List.mem_append_left _ h
    · exact List.mem_append_right _ h
  · cases c' with
    | nil =>
      rcases hy a d [] l3 hd hc (by simpa using h2.symm) with h | h
      · simpa [h1] using h
      · simp at h
    | cons b c'' =>
      simp only [List.cons_append, List.cons.injEq] at h2
      rw [← h2.1] at h1
      exact hx a d l1 c'' hd hc h1

/-- A filter that lets through less, and not some element the other lets through, gives a
shorter list. -/
theorem filter_length_lt_of_imp {α : Type} (p q : α → Bool) (c : α) :
    ∀ l : List α, (∀ x ∈ l, p x = true → q x = true) → c ∈ l → q c = true → p c = false →
      (l.filter p).length < (l.filter q).length := by
  intro l
  induction l with
  | nil => intro _ hc; simp at hc
  | cons y l ih =>
    intro himp hc hq hp
    have hle : (l.filter p).length ≤ (l.filter q).length := by
      have := List.countP_mono_left (l := l) (p := p) (q := q)
        (fun x hx => himp x (List.mem_cons_of_mem _ hx))
      simpa [List.countP_eq_length_filter] using this
    rcases List.mem_cons.1 hc with rfl | hc
    · simp only [List.filter_cons, hq, hp, if_true, List.length_cons]
      simp
      omega
    · have ih' := ih (fun x hx => himp x (List.mem_cons_of_mem _ hx)) hc hq hp
      by_cases hpy : p y = true
      · have hqy := himp y (List.mem_cons_self _ _) hpy
        simp only [List.filter_cons, hpy, hqy, if_true, List.length_cons]
        omega
      · by_cases hqy : q y = true
        · simp only [List.filter_cons, hpy, hqy, if_true, List.length_cons]
          simp
          omega
        · simp only [List.filter_cons, hpy, hqy]
          simpa using ih'

/-- The call `mnt_table_next_child_fs` is the scan started without a candidate. -/
theorem next_child_eq (bw : Bool) (tb : List MntFs) (p : MntFs) (last : Option MntFs) :
    mnt_table_next_child_fs bw tb p last = nextChildScan bw p.id (lastId last) tb none := by
  cases last <;> rfl

/-- A record beyond an eligible record is eligible. -/
theorem eligible_of_eligible_beyond (bw : Bool) (pid last : Nat) (c x : MntFs) (hc0 : 0 < c.id)
    (hc : Eligible bw pid last c) (hx : Eligible bw pid c.id x) : Eligible bw pid last x := by
  refine ⟨hx.1, hx.2.1, ?_⟩
  have h1 := hc.2.2
  have h2 := hx.2.2
  cases bw <;> simp at h1 h2 ⊢ <;> omega

/-- The loop over the children: with enough fuel it returns the events of a run of unmount
calls that does not depend on the kernel, keeps children first and holds every child not
handled yet. -/
theorem umountChildren_spec (bw : Bool) (tb : List MntFs) (p : MntFs)
    (hpos : ∀ x ∈ tb, 0 < x.id) (hinj : ∀ x ∈ tb, ∀ y ∈ tb, x.id = y.id → x = y)
    (hch : ∀ c ∈ tb, IsChild p c → ∃ calls N, NodeSpec bw tb c calls N) :
    ∀ (n : Nat) (last : Option MntFs), (∀ l, last = some l → 0 < l.id) →
      (tb.filter (fun x => decide (Eligible bw p.id (lastId last) x))).length ≤ n →
      ∃ calls N,
        (∀ fuel, N ≤ fuel → ∀ k : Kernel,
          umountChildren k true bw tb true fuel p last = some (umountEvents k calls)) ∧
        ChildrenFirst tb calls ∧
        (∀ x ∈ tb, Eligible bw p.id (lastId last) x → x ∈ calls) ∧ ∀ x ∈ calls, x ∈ tb := by
  intro n
  induction n with
  | zero =>
    intro last _ hlen
    have hnone : ∀ x ∈ tb, ¬ Eligible bw p.id (lastId last) x := by
      intro x hx he
      have : x ∈ tb.filter (fun x => decide (Eligible bw p.id (lastId last) x)) :=
        List.mem_filter.2 ⟨hx, by simpa using he⟩
      have h0 := List.length_eq_zero.1 (Nat.le_zero.1 hlen)
      rw [h0] at this
      simp at this
    have hscan := nextChildScan_spec bw p.id (lastId last) tb none hpos (by simp)
    refine ⟨[], 1, ?_, ?_, ?_, ?_⟩
    · intro fuel hf k
      obtain ⟨f, rfl⟩ : ∃ f, fuel = f + 1 := ⟨fuel - 1, by omega⟩
      rw [umountChildren, next_child_eq]
      cases hr : nextChildScan bw p.id (lastId last) tb none with
      | none => simp [umountEvents]
      | some c =>
        rw [hr] at hscan
        rcases hscan.1 with h | ⟨h1, h2⟩
        · simp at h
        · exact absurd h2 (hnone c h1)
    · intro a d l1 l3 _ _ h
      simp at h
    · intro x hx he
      exact absurd he (hnone x hx)
    · intro x hx
      simp at hx
  | succ n ih =>
    intro last hlast hlen
    have hscan := nextChildScan_spec bw p.id (lastId last) tb none hpos (by simp)
    cases hr : nextChildScan bw p.id (lastId last) tb none with
    | none =>
      rw [hr] at hscan
      refine ⟨[], 1, ?_, ?_, ?_, ?_⟩
      · intro fuel hf k
        obtain ⟨f, rfl⟩ : ∃ f, fuel = f + 1 := ⟨fuel - 1, by omega⟩
        rw [umountChildren, next_child_eq, hr]
        simp [umountEvents]
      · intro a d l1 l3 _ _ h
        simp at h
      · intro x hx he
        exact absurd he (hscan.2 x hx)
      · intro x hx
        simp at hx
    | some c =>
      rw [hr] at hscan
      obtain ⟨hc1, hc2, -⟩ := hscan
      have hctb : c ∈ tb := by
        rcases hc1 with h | h
        · simp at h
        · exact h.1
      have hce : Eligible bw p.id (lastId last) c := by
        rcases hc1 with h | h
        · simp at h
        · exact h.2
      have hc0 : 0 < c.id := hpos c hctb
      obtain ⟨callsC, NC, hrunC, hgoodC, hlastC, hmemC⟩ := hch c hctb ⟨hce.1, hce.2.1⟩
      have hnot : ¬ Eligible bw p.id c.id c := by
        intro h
        have h3 := h.2.2
        cases bw <;> simp at h3 <;> omega
      have hlen' : (tb.filter (fun x => decide (Eligible bw p.id (lastId (some c)) x))).length ≤ n := by
        have := filter_length_lt_of_imp
          (fun x => decide (Eligible bw p.id (lastId (some c)) x))
          (fun x => decide (Eligible bw p.id (lastId last) x)) c tb
          (by
            intro x _ hx
            simp only [decide_eq_true_eq] at hx ⊢
            exact eligible_of_eligible_beyond bw p.id _ c x hc0 hce hx)
          hctb (by simpa using hce) (by simpa [lastId] using hnot)
        omega
      obtain ⟨callsR, NR, hrunR, hgoodR, hallR, hmemR⟩ :=
        ih (some c) (by intro l hl; simp only [Option.some.injEq] at hl; subst hl; exact hc0) hlen'
      refine ⟨callsC ++ callsR, max NC NR + 1, ?_, ?_, ?_, ?_⟩
      · intro fuel hf k
        obtain ⟨f, rfl⟩ : ∃ f, fuel = f + 1 := ⟨fuel - 1, by omega⟩
        rw [umountChildren, next_child_eq, hr]
        simp only []
        rw [hrunC f (by omega) k, hrunR f (by omega) k, umountEvents_append]
      · exact childrenFirst_append tb callsC callsR hgoodC
          (fun a d l1 l3 hd hcd h => Or.inr (hgoodR a d l1 l3 hd hcd h))
      · intro x hx he
        by_cases hxc : x = c
        · subst hxc
          exact List.mem_append_left _ (List.mem_of_getLast?_eq_some hlastC)
        · have hid : x.id ≠ c.id := fun h => hxc (hinj x hx c hctb h)
          have hn := hc2 x hx he
          refine List.mem_append_right _ (hallR x hx ⟨he.1, he.2.1, Or.inr ?_⟩)
          simp only [lastId]
          cases bw <;> simp [Nearer] at hn ⊢ <;> omega
      · intro x hx
        rcases List.mem_append.1 hx with h | h
        · exact hmemC x h
        · exact hmemR x h

/-- The run of `umountRecursive` on a record of a table whose part below the record is
well-founded: with enough fuel it returns. -/
theorem umountRecursive_spec (bw : Bool) (tb : List MntFs) (rank : Nat → Nat)
    (hpos : ∀ x ∈ tb, 0 < x.id) (hinj : ∀ x ∈ tb, ∀ y ∈ tb, x.id = y.id → x = y)
    (B : Nat)
    (hrank : ∀ c ∈ tb, c.id ≠ c.parent → rank c.parent ≤ B → rank c.id < rank c.parent) :
    ∀ (r : Nat) (e : MntFs), e ∈ tb → rank e.id < r → rank e.id ≤ B →
      ∃ calls N, NodeSpec bw tb e calls N := by
  intro r
  induction r with
  | zero => intro e _ h; omega
  | succ r ih =>
    intro e he hr hB
    have hch : ∀ c ∈ tb, IsChild e c → ∃ calls N, NodeSpec bw tb c calls N := by
      intro c hc hce
      have := hrank c hc (by rw [hce.1]; exact hce.2) (by rw [hce.1]; exact hB)
      rw [hce.1] at this
      exact ih c hc (by omega) (by omega)
    obtain ⟨callsL, NL, hrunL, hgoodL, hallL, hmemL⟩ :=
      umountChildren_spec bw tb e hpos hinj hch tb.length none (by simp)
        (List.length_filter_le _ _)
    refine ⟨callsL ++ [e], NL + 1, ?_, ?_, ?_, ?_⟩
    · intro fuel hf k
      obtain ⟨f, rfl⟩ : ∃ f, fuel = f + 1 := ⟨fuel - 1, by omega⟩
      rw [umountRecursive]
      simp only [if_true]
      rw [hrunL f (by omega) k, umountEvents_append]
      simp [umountEvents]
    · refine childrenFirst_append tb callsL [e] hgoodL ?_
      intro a d l1 l3 hd hcd h
      cases l1 with
      | nil =>
        simp only [List.nil_append, List.cons.injEq] at h
        obtain ⟨rfl, -⟩ := h
        exact Or.inl (hallL d hd ⟨hcd.1, hcd.2, Or.inl rfl⟩)
      | cons b l1 =>
        simp at h
    · simp
    · intro x hx
      rcases List.mem_append.1 hx with h | h
      · exact hmemL x h
      · simp only [List.mem_singleton] at h
        exact h ▸ he

/-- When children come first, so do all records further below. -/
theorem descendants_first (tb calls : List MntFs) (h : ChildrenFirst tb calls) :
    ∀ a d : MntFs, Descendant tb a d → ∀ l1 l3 : List MntFs, calls = l1 ++ a :: l3 → d ∈ l1 := by
  intro a d hd
  induction hd with
  | child d hdtb hc => intro l1 l3 hs; exact h a d l1 l3 hdtb hc hs
  | step c d _ hdtb hc ih =>
    intro l1 l3 hs
    obtain ⟨m1, m2, hm⟩ := List.append_of_mem (ih l1 l3 hs)
    have := h c d m1 (m2 ++ a :: l3) hdtb hc (by rw [hs, hm]; simp)
    rw [hm]
    exact List.mem_append_left _ this

/-- The record `mnt_table_find_target` returns is in the table. -/
theorem mem_of_find_target (tb : List MntFs) (path : Option String) (t : MntFs)
    (h : mnt_table_find_target tb path = some t) : t ∈ tb := by
  unfold mnt_table_find_target at h
  cases path with
  | none => simp at h
  | some p =>
    simp only at h
    split at h
    · simp at h
    · exact List.mem_reverse.1 (List.mem_of_find?_eq_some h)

/-- Without a context `umountRecursive` does nothing, whatever the fuel. -/
theorem umountRecursive_without_context (k : Kernel) (mountinfo bw : Bool) (tb : List MntFs)
    (fuel : Nat) (r : Option MntFs) :
    umountRecursive k mountinfo bw tb false fuel r = some [] := by
  cases fuel with
  | zero => simp [umountRecursive]
  | succ f =>
    cases r with
    | none => simp [umountRecursive]
    | some e => simp [umountRecursive]

/-- The destructor of an object without a context issues no unmount call. -/
theorem destroy_without_context (k : Kernel) (mountinfo bw : Bool) (mtab : Option (List MntFs))
    (fuel : Nat) (m : Mount) (h : m.mnt_cxt = false) :
    destroy k mountinfo bw mtab fuel m =
      some (match mtab with
        | none => [Event.logError none]
        | some _ => []) := by
  simp only [destroy, h, umountRecursive_without_context]
  cases mtab <;> simp

/-- The lookup of the table entry leaves the context as it is. -/
theorem getTabEntry_cxt (fs : FileSystem) (m : Mount) : (getTabEntry fs m).1.mnt_cxt = m.mnt_cxt := by
  unfold getTabEntry
  split
  · rfl
  · split <;> rfl

/-- `find` leaves the context as it is. -/
theorem find_cxt (fs : FileSystem) (m : Mount) : (find fs m).1.mnt_cxt = m.mnt_cxt := by
  have h := getTabEntry_cxt fs m
  unfold find
  split
  · next m1 e heq => rw [heq] at h; exact h
  · next m1 u heq =>
    rw [heq] at h
    split <;> exact h

/-- `getMntFs` leaves the context as it is. -/
theorem getMntFs_cxt (fs : FileSystem) (m : Mount) : (getMntFs fs m).1.mnt_cxt = m.mnt_cxt := by
  have h := getTabEntry_cxt fs m
  unfold getMntFs
  split
  · next m1 e heq => rw [heq] at h; exact h
  · next m1 u heq =>
    rw [heq] at h
    split <;> exact h

/-- `isMount` leaves the context as it is. -/
theorem isMount_cxt (fs : FileSystem) (m : Mount) : (isMount fs m).1.mnt_cxt = m.mnt_cxt := by
  have h := getTabEntry_cxt fs m
  unfold isMount
  split
  · next m1 e heq => rw [heq] at h; exact h
  · next m1 u heq => rw [heq] at h; exact h

/-- `getOption` leaves the context as it is. -/
theorem getOption_cxt (maps : OptItem → OptClass) (fs : FileSystem) (m : Mount) (name : String) :
    (getOption maps fs m name).1.mnt_cxt = m.mnt_cxt := by
  have h := find_cxt fs m
  unfold getOption
  split
  · next m1 e heq => rw [heq] at h; exact h
  · next m1 u heq =>
    rw [heq] at h
    repeat' split
    all_goals exact h

/-- `setSource` leaves the context as it is. -/
theorem setSource_cxt (fs : FileSystem) (m : Mount) (source : String) :
    (setSource fs m source).1.mnt_cxt = m.mnt_cxt := by
  have h := getMntFs_cxt fs m
  unfold setSource
  split
  · next m1 e heq => rw [heq] at h; exact h
  · next m1 u heq =>
    rw [heq] at h
    split <;> exact h

/-- C4, as stated, fails for an object that has not mounted: in the example world `/mnt/x`
is in fstab and in the live mount table, with `/mnt/x/a` and `/mnt/x/a/b` mounted below it;
`isMount` answers true on a `Mount` for `/mnt/x`, `getOption` finds its record, and the target
of the record the object then holds is found in the live table; yet the destructor issues no
unmount call at all, so the target is not unmounted last and no record below it is unmounted
before it. -/
theorem destroy_of_object_that_never_mounted_unmounts_nothing :
    (isMount demoFs (Mount.new "/mnt/x" 0)).2 = Except.ok true ∧
    mnt_table_find_target demoMtab
        ((isMount demoFs (Mount.new "/mnt/x" 0)).1.mnt_fs.bind (fun r => r.target)) =
      some (liveRecord 20 1 "/mnt/x") ∧
    liveRecord 21 20 "/mnt/x/a" ∈ demoMtab ∧ liveRecord 25 21 "/mnt/x/a/b" ∈ demoMtab ∧
    destroy demoKernel true true (some demoMtab) 8 (isMount demoFs (Mount.new "/mnt/x" 0)).1 =
      some [] ∧
    (getOption demoOptClass demoFs (Mount.new "/mnt/x" 0) "lowerdir").1.mnt_fs = some demoFstabX ∧
    destroy demoKernel true true (some demoMtab) 8
      (getOption demoOptClass demoFs (Mount.new "/mnt/x" 0) "lowerdir").1 = some [] := by
  decide

/-- C4, amended: take a live mount table with mount ids (positive, no id twice) in which the
target of the record the object holds is found, as record `t`, and whose part below `t` is
well-founded (`rank` falls from a mount to its children).  Given enough fuel, the destructor
returns, and its events are those of one run of unmount calls `calls` that is the same for
every kernel: a failed unmount adds an error line behind the call and changes nothing else.
For an object on which `mount` has been called (the context is allocated), every record in
`calls` comes only after all records of the table that lie below it, and `t` is last.  For an
object on which `mount` has not been called, `calls` is empty. -/
theorem destroy_unmounts_descendants_first (bw : Bool) (tb : List MntFs) (m : Mount) (t : MntFs)
    (rank : Nat → Nat)
    (hfind : mnt_table_find_target tb (m.mnt_fs.bind (fun r => r.target)) = some t)
    (hpos : ∀ x ∈ tb, 0 < x.id) (hinj : ∀ x ∈ tb, ∀ y ∈ tb, x.id = y.id → x = y)
    (hrank : ∀ c ∈ tb, c.id ≠ c.parent → rank c.parent ≤ rank t.id → rank c.id < rank c.parent) :
    ∃ (calls : List MntFs) (N : Nat),
      (∀ fuel, N ≤ fuel → ∀ k : Kernel,
        destroy k true bw (some tb) fuel m = some (umountEvents k calls)) ∧
      (∀ x ∈ calls, x ∈ tb) ∧
      (∀ a d : MntFs, Descendant tb a d →
        ∀ l1 l3 : List MntFs, calls = l1 ++ a :: l3 → d ∈ l1) ∧
      (m.mnt_cxt = true → calls.getLast? = some t) ∧ (m.mnt_cxt = false → calls = []) := by
  by_cases hcxt : m.mnt_cxt = true
  · obtain ⟨calls, N, hrun, hgood, hlast, hmem⟩ :=
      umountRecursive_spec bw tb rank hpos hinj (rank t.id) hrank (rank t.id + 1) t
        (mem_of_find_target tb _ t hfind) (by omega) (le_refl _)
    refine ⟨calls, N, ?_, hmem, descendants_first tb calls hgood, fun _ => hlast,
      fun h => absurd hcxt (by simp [h])⟩
    intro fuel hf k
    simp only [destroy, hfind, hcxt, hrun fuel hf k]
    simp
  · have hf : m.mnt_cxt = false := by simpa using hcxt
    refine ⟨[], 0, ?_, by simp, ?_, fun h => absurd h hcxt, fun _ => rfl⟩
    · intro fuel _ k
      rw [destroy_without_context k true bw (some tb) fuel m hf]
      simp [umountEvents]
    · intro a d _ l1 l3 h
      simp at h

/-- Witness for `destroy_unmounts_descendants_first`: the example table, in which `/mnt/x/a`
is mounted below `/mnt/x` and `/mnt/x/a/b` below that; the calls are `/mnt/x/a/b`, `/mnt/x/a`,
`/mnt/x`. -/
theorem destroy_unmounts_descendants_first_witness :
    (mnt_table_find_target demoMtab (demoMounted.mnt_fs.bind (fun r => r.target)) =
        some (liveRecord 20 1 "/mnt/x") ∧
      (∀ x ∈ demoMtab, 0 < x.id) ∧ (∀ x ∈ demoMtab, ∀ y ∈ demoMtab, x.id = y.id → x = y) ∧
      (∀ c ∈ demoMtab, c.id ≠ c.parent → 100 - c.parent ≤ 100 - (liveRecord 20 1 "/mnt/x").id →
        100 - c.id < 100 - c.parent)) ∧
    (∃ (calls : List MntFs) (N : Nat),
      (∀ fuel, N ≤ fuel → ∀ k : Kernel,
        destroy k true true (some demoMtab) fuel demoMounted = some (umountEvents k calls)) ∧
      (∀ x ∈ calls, x ∈ demoMtab) ∧
      (∀ a d : MntFs, Descendant demoMtab a d →
        ∀ l1 l3 : List MntFs, calls = l1 ++ a :: l3 → d ∈ l1) ∧
      (demoMounted.mnt_cxt = true → calls.getLast? = some (liveRecord 20 1 "/mnt/x")) ∧
      (demoMounted.mnt_cxt = false → calls = [])) ∧
    destroy demoKernel true true (some demoMtab) 8 demoMounted =
      some [Event.umount (liveRecord 25 21 "/mnt/x/a/b"), Event.umount (liveRecord 21 20 "/mnt/x/a"),
        Event.umount (liveRecord 20 1 "/mnt/x")] :=
  ⟨⟨by decide, by decide, by decide, by decide⟩,
    destroy_unmounts_descendants_first true demoMtab demoMounted (liveRecord 20 1 "/mnt/x")
      (fun i => 100 - i) (by decide) (by decide) (by decide) (by decide),
    by decide⟩

/-- C5, as stated, fails: `/mnt/x` is in the live mount table of the example world, yet the
destructor of a `Mount` for `/mnt/x` issues no unmount call when nothing was called on the
object, and none when `find` (which succeeds) or `setSource` was called on it. -/
theorem destroy_without_mount_issues_no_unmount :
    mnt_table_find_target demoMtab (some "/mnt/x") = some (liveRecord 20 1 "/mnt/x") ∧
    destroy demoKernel true true (some demoMtab) 8 (Mount.new "/mnt/x" 0) = some [] ∧
    (find demoFs (Mount.new "/mnt/x" 0)).2 = Except.ok () ∧
    (find demoFs (Mount.new "/mnt/x" 0)).1.mnt_fs = some demoFstabX ∧
    destroy demoKernel true true (some demoMtab) 8 (find demoFs (Mount.new "/mnt/x" 0)).1 = some [] ∧
    destroy demoKernel true true (some demoMtab) 8
      (setSource demoFs (Mount.new "/mnt/x" 0) "/dev/vdb1").1 = some [] := by
  decide

/-- C5, amended: the destructor unmounts only what the object itself has mounted.  Without a
context, which only `mount` allocates (`find`, `isMount`, `getOption`, `setSource` leave it as
it is), the destructor issues no unmount call, whatever the live mount table holds.  With a
context, and the target of the held record (the record as the mount call left it: `mount` sets
its target to prefix plus target, and libmount puts the canonical path in its place while it
mounts) found in a live table with mount ids whose part below that record is well-founded, the
destructor, given enough fuel, issues an unmount call for that record. -/
theorem destroy_unmounts_only_after_mount (m : Mount) :
    (m.mnt_cxt = false → ∀ (k : Kernel) (mountinfo bw : Bool) (mtab : Option (List MntFs))
      (fuel : Nat), ∃ evs, destroy k mountinfo bw mtab fuel m = some evs ∧
        ∀ r, Event.umount r ∉ evs) ∧
    (∀ (fs : FileSystem) (name value : String),
      (find fs m).1.mnt_cxt = m.mnt_cxt ∧ (isMount fs m).1.mnt_cxt = m.mnt_cxt ∧
      (∀ maps : OptItem → OptClass, (getOption maps fs m name).1.mnt_cxt = m.mnt_cxt) ∧
      (setSource fs m value).1.mnt_cxt = m.mnt_cxt) ∧
    (∀ (k : Kernel) (fs : FileSystem) (pfx : String) (r : MntFs), m.mnt_fs = some r →
      (mount k fs m pfx).1.mnt_cxt = true ∧
      (mount k fs m pfx).1.mnt_fs =
        some (k.prepared { r with target := some (pfx ++ m.target) } m.flags)) ∧
    (m.mnt_cxt = true → ∀ (bw : Bool) (tb : List MntFs) (t : MntFs) (rank : Nat → Nat),
      mnt_table_find_target tb (m.mnt_fs.bind (fun r => r.target)) = some t →
      (∀ x ∈ tb, 0 < x.id) → (∀ x ∈ tb, ∀ y ∈ tb, x.id = y.id → x = y) →
      (∀ c ∈ tb, c.id ≠ c.parent → rank c.parent ≤ rank t.id → rank c.id < rank c.parent) →
      ∃ N, ∀ fuel, N ≤ fuel → ∀ k : Kernel, ∃ evs,
        destroy k true bw (some tb) fuel m = some evs ∧ Event.umount t ∈ evs) := by
  refine ⟨?_, ?_, ?_, ?_⟩
  · intro h k mountinfo bw mtab fuel
    refine ⟨_, destroy_without_context k mountinfo bw mtab fuel m h, ?_⟩
    intro r
    cases mtab <;> simp
  · intro fs name value
    exact ⟨find_cxt fs m, isMount_cxt fs m, fun maps => getOption_cxt maps fs m name,
      setSource_cxt fs m value⟩
  · intro k fs pfx r hr
    simp [mount, hr]
  · intro hcxt bw tb t rank hfind hpos hinj hrank
    obtain ⟨calls, N, hrun, -, hlast, -⟩ :=
      umountRecursive_spec bw tb rank hpos hinj (rank t.id) hrank (rank t.id + 1) t
        (mem_of_find_target tb _ t hfind) (by omega) (le_refl _)
    refine ⟨N, fun fuel hf k => ⟨umountEvents k calls, ?_, ?_⟩⟩
    · simp only [destroy, hfind, hcxt, hrun fuel hf k]
      simp
    · have hmem : t ∈ calls := List.mem_of_getLast?_eq_some hlast
      simp only [umountEvents, List.mem_flatMap]
      exact ⟨t, hmem, List.mem_cons_self _ _⟩

/-- Witness for `destroy_unmounts_only_after_mount`: the mounted object of the example world
and its live mount table; an object that has not mounted; and the object for `/mnt/x` that has
found its record and mounted it with prefix `/`, whose destructor finds `/mnt/x` in the live
table under the target `//mnt/x` and unmounts it after the mounts below it. -/
theorem destroy_unmounts_only_after_mount_witness :
    (demoMounted.mnt_cxt = true ∧
      mnt_table_find_target demoMtab (demoMounted.mnt_fs.bind (fun r => r.target)) =
        some (liveRecord 20 1 "/mnt/x") ∧
      (∀ x ∈ demoMtab, 0 < x.id) ∧ (∀ x ∈ demoMtab, ∀ y ∈ demoMtab, x.id = y.id → x = y) ∧
      (∀ c ∈ demoMtab, c.id ≠ c.parent → 100 - c.parent ≤ 100 - (liveRecord 20 1 "/mnt/x").id →
        100 - c.id < 100 - c.parent)) ∧
    (∃ N, ∀ fuel, N ≤ fuel → ∀ k : Kernel, ∃ evs,
      destroy k true true (some demoMtab) fuel demoMounted = some evs ∧
        Event.umount (liveRecord 20 1 "/mnt/x") ∈ evs) ∧
    ((Mount.new "/mnt/x" 0).mnt_cxt = false ∧
      ∃ evs, destroy demoKernel true true (some demoMtab) 0 (Mount.new "/mnt/x" 0) = some evs ∧
        ∀ r, Event.umount r ∉ evs) ∧
    ((find demoFs (Mount.new "/mnt/x" 0)).1.mnt_fs = some demoFstabX ∧
      (mount demoKernel demoFs (find demoFs (Mount.new "/mnt/x" 0)).1 "/").1.mnt_cxt = true ∧
      (mount demoKernel demoFs (find demoFs (Mount.new "/mnt/x" 0)).1 "/").1.mnt_fs.bind
        (fun r => r.target) = some "//mnt/x" ∧
      mnt_table_find_target demoMtab (some "//mnt/x") = some (liveRecord 20 1 "/mnt/x") ∧
      destroy demoKernel true true (some demoMtab) 8
          (mount demoKernel demoFs (find demoFs (Mount.new "/mnt/x" 0)).1 "/").1 =
        some [Event.umount (liveRecord 25 21 "/mnt/x/a/b"),
          Event.umount (liveRecord 21 20 "/mnt/x/a"), Event.umount (liveRecord 20 1 "/mnt/x")]) :=
  ⟨⟨by decide, by decide, by decide, by decide, by decide⟩,
    (destroy_unmounts_only_after_mount demoMounted).2.2.2 (by decide) true demoMtab
      (liveRecord 20 1 "/mnt/x") (fun i => 100 - i) (by decide) (by decide) (by decide) (by decide),
    ⟨by decide,
      (destroy_unmounts_only_after_mount (Mount.new "/mnt/x" 0)).1 (by decide) demoKernel true true
        (some demoMtab) 0⟩,
    by decide⟩

end Mount

/-! ## Overlay::sync -/

/-- C6: when the `upperdir` option of the `/etc` record in the fstab of the oldest referenced
snapshot and the `upperdir` option of the current `/etc` record are both read and are equal,
`sync` returns normally without any outside call (no mount, no copy command), leaves the file
system, and with it every stored lowerdir list, as it was, and leaves its local `Mount`
without a context, so that the destructor issues no unmount call either. -/
theorem sync_noop_when_upperdirs_equal (cfg : Config) (k : Kernel) (fs : FileSystem)
    (o : Overlay) (snapshot u : String)
    (hold : (((Mount.new "/etc" Mount.defaultFlags).setTabSource
        (pathAppend (pathAppend (cfg.snapRoot (Overlay.getOldestSnapshot cfg o)) "etc") "fstab")).getOption
          cfg.optClass fs "upperdir").2 = Except.ok u)
    (hcur : ((Mount.new "/etc" Mount.defaultFlags).getOption cfg.optClass fs "upperdir").2 = Except.ok u) :
    (Overlay.sync cfg k fs o snapshot).2.2.2 = Except.ok () ∧
    (Overlay.sync cfg k fs o snapshot).2.2.1 = [] ∧
    (Overlay.sync cfg k fs o snapshot).2.1 = fs ∧
    ∀ (k1 : Kernel) (mountinfo bw : Bool) (mtab : Option (List MntFs)) (fuel : Nat),
      ∃ evs, Mount.destroy k1 mountinfo bw mtab fuel (Overlay.sync cfg k fs o snapshot).1 = some evs ∧
        ∀ r, Event.umount r ∉ evs := by
  have hc := Mount.getOption_cxt cfg.optClass fs ((Mount.new "/etc" Mount.defaultFlags).setTabSource
    (pathAppend (pathAppend (cfg.snapRoot (Overlay.getOldestSnapshot cfg o)) "etc") "fstab")) "upperdir"
  rcases h1 : ((Mount.new "/etc" Mount.defaultFlags).setTabSource
      (pathAppend (pathAppend (cfg.snapRoot (Overlay.getOldestSnapshot cfg o)) "etc") "fstab")).getOption
        cfg.optClass fs "upperdir" with ⟨e1, r1⟩
  rcases h2 : (Mount.new "/etc" Mount.defaultFlags).getOption cfg.optClass fs "upperdir" with ⟨e2, r2⟩
  rw [h1] at hold hc
  rw [h2] at hcur
  simp only at hold hcur hc
  subst hold hcur
  have hsync : Overlay.sync cfg k fs o snapshot = (e1, fs, [], Except.ok ()) := by
    simp only [Overlay.sync, h1, h2, if_true]
  rw [hsync]
  refine ⟨rfl, rfl, rfl, ?_⟩
  intro k1 mountinfo bw mtab fuel
  have hf : e1.mnt_cxt = false := by
    rw [hc]; rfl
  refine ⟨_, Mount.destroy_without_context k1 mountinfo bw mtab fuel e1 hf, ?_⟩
  intro r
  cases mtab <;> simp

/-- Witness for `sync_noop_when_upperdirs_equal`: the example world while snapshot 0 is the
running system. -/
theorem sync_noop_when_upperdirs_equal_witness :
    ((((Mount.new "/etc" Mount.defaultFlags).setTabSource
        (pathAppend (pathAppend (demoConfig.snapRoot (Overlay.getOldestSnapshot demoConfig
          (Overlay.new demoConfig demoFsSynced "3").1)) "etc") "fstab")).getOption
          demoConfig.optClass demoFsSynced "upperdir").2 = Except.ok "/sysroot/var/lib/overlay/0/etc" ∧
      ((Mount.new "/etc" Mount.defaultFlags).getOption demoConfig.optClass demoFsSynced "upperdir").2 =
        Except.ok "/sysroot/var/lib/overlay/0/etc") ∧
    (Overlay.sync demoConfig demoKernel demoFsSynced (Overlay.new demoConfig demoFsSynced "3").1
        "/.snapshots/4/snapshot").2.2.2 = Except.ok () ∧
    (Overlay.sync demoConfig demoKernel demoFsSynced (Overlay.new demoConfig demoFsSynced "3").1
        "/.snapshots/4/snapshot").2.2.1 = [] :=
  ⟨⟨by decide, by decide⟩,
    (sync_noop_when_upperdirs_equal demoConfig demoKernel demoFsSynced
      (Overlay.new demoConfig demoFsSynced "3").1 "/.snapshots/4/snapshot"
      "/sysroot/var/lib/overlay/0/etc" (by decide) (by decide)).1,
    (sync_noop_when_upperdirs_equal demoConfig demoKernel demoFsSynced
      (Overlay.new demoConfig demoFsSynced "3").1 "/.snapshots/4/snapshot"
      "/sysroot/var/lib/overlay/0/etc" (by decide) (by decide)).2.1⟩

/-! ## Option strings -/

/-- After `mnt_optstr_set_option` with a name that is not empty, the first item called `name`
carries the value. -/
theorem locate_set_same (l : List OptItem) (name value : String) (hname : name ≠ "") :
    mnt_optstr_locate_option (mnt_optstr_set_option l name value) name =
      some (name, some value) := by
  induction l with
  | nil => simp [mnt_optstr_set_option, mnt_optstr_locate_option, hname]
  | cons o rest ih =>
    by_cases h : o.1 = name
    · simp [mnt_optstr_set_option, mnt_optstr_locate_option, h, hname]
    · have hn : ¬ (name ≠ "" ∧ o.1 = name) := fun hh => h hh.2
      simp only [mnt_optstr_set_option, if_neg hn]
      simp only [mnt_optstr_locate_option] at ih ⊢
      rw [List.find?_cons_of_neg _ (by simpa using fun _ => h)]
      exact ih

/-- A search that takes no item called `name` finds in the string `mnt_optstr_set_option`
makes for `name` what it finds in the string before. -/
theorem find_set_of_reject (p : OptItem → Bool) (name value : String)
    (hp : ∀ o : OptItem, o.1 = name → p o = false) (l : List OptItem) :
    (mnt_optstr_set_option l name value).find? p = l.find? p := by
  induction l with
  | nil =>
    by_cases hname : name = ""
    · simp [mnt_optstr_set_option, hname]
    · simp [mnt_optstr_set_option, hname, hp (name, some value) rfl]
  | cons o rest ih =>
    by_cases ho : name ≠ "" ∧ o.1 = name
    · simp only [mnt_optstr_set_option, if_pos ho]
      rw [List.find?_cons_of_neg _ (by simp [hp (name, some value) rfl]),
        List.find?_cons_of_neg _ (by simp [hp o ho.2])]
    · simp only [mnt_optstr_set_option, if_neg ho]
      by_cases hpo : p o = true
      · rw [List.find?_cons_of_pos _ hpo, List.find?_cons_of_pos _ hpo]
      · rw [List.find?_cons_of_neg _ hpo, List.find?_cons_of_neg _ hpo]
        exact ih

/-- A search that takes no item called `name` finds in the string `mnt_optstr_remove_option`
leaves for `name` what it finds in the string before. -/
theorem find_remove_of_reject (p : OptItem → Bool) (name : String)
    (hp : ∀ o : OptItem, o.1 = name → p o = false) :
    ∀ (l l1 : List OptItem), mnt_optstr_remove_option l name = some l1 →
      l1.find? p = l.find? p := by
  intro l
  induction l with
  | nil => intro l1 hr; simp [mnt_optstr_remove_option] at hr
  | cons o rest ih =>
    intro l1 hr
    by_cases ho : name ≠ "" ∧ o.1 = name
    · simp only [mnt_optstr_remove_option, if_pos ho, Option.some.injEq] at hr
      subst hr
      rw [List.find?_cons_of_neg _ (by simp [hp o ho.2])]
    · simp only [mnt_optstr_remove_option, if_neg ho, Option.map_eq_some'] at hr
      obtain ⟨l2, hl2, rfl⟩ := hr
      by_cases hpo : p o = true
      · rw [List.find?_cons_of_pos _ hpo, List.find?_cons_of_pos _ hpo]
      · rw [List.find?_cons_of_neg _ hpo, List.find?_cons_of_neg _ hpo]
        exact ih l2 hl2

/-- Setting one option leaves what is located under another name. -/
theorem locate_set_other (l : List OptItem) (name value other : String) (h : other ≠ name) :
    mnt_optstr_locate_option (mnt_optstr_set_option l name value) other =
      mnt_optstr_locate_option l other := by
  unfold mnt_optstr_locate_option
  exact find_set_of_reject _ name value
    (fun o ho => by simp only [decide_eq_false_iff_not]; exact fun hh => h (hh.2.symm.trans ho)) l

/-- Removing one option leaves what is located under another name. -/
theorem locate_remove_other (name other : String) (h : other ≠ name) :
    ∀ (l l1 : List OptItem), mnt_optstr_remove_option l name = some l1 →
      mnt_optstr_locate_option l1 other = mnt_optstr_locate_option l other := by
  unfold mnt_optstr_locate_option
  exact find_remove_of_reject _ name
    (fun o ho => by simp only [decide_eq_false_iff_not]; exact fun hh => h (hh.2.symm.trans ho))

/-- Nothing is located under a name exactly when no item carries it. -/
theorem locate_eq_none_iff (l : List OptItem) (name : String) :
    mnt_optstr_locate_option l name = none ↔ optCount l name = 0 := by
  simp [mnt_optstr_locate_option, optCount, List.countP_eq_zero]

/-- Removal succeeds exactly when an item carries the name, and takes one such item away. -/
theorem remove_count (name : String) :
    ∀ (l : List OptItem),
      (optCount l name = 0 → mnt_optstr_remove_option l name = none) ∧
      (0 < optCount l name → ∃ l1, mnt_optstr_remove_option l name = some l1 ∧
        optCount l1 name + 1 = optCount l name) := by
  intro l
  induction l with
  | nil => simp [mnt_optstr_remove_option, optCount]
  | cons o rest ih =>
    by_cases ho : name ≠ "" ∧ o.1 = name
    · refine ⟨fun h => ?_, fun _ => ⟨rest, ?_, ?_⟩⟩
      · simp [optCount, List.countP_cons, ho] at h
      · simp only [mnt_optstr_remove_option, if_pos ho]
      · simp [optCount, List.countP_cons, ho]
    · have hc : optCount (o :: rest) name = optCount rest name := by
        simp only [optCount, List.countP_cons, ho, decide_False]
        simp
      rw [hc]
      refine ⟨fun h => ?_, fun h => ?_⟩
      · simp only [mnt_optstr_remove_option, if_neg ho, ih.1 h]
        rfl
      · obtain ⟨l1, h1, h2⟩ := ih.2 h
        refine ⟨o :: l1, ?_, ?_⟩
        · simp only [mnt_optstr_remove_option, if_neg ho, h1]
          rfl
        · rw [← h2]
          simp only [optCount, List.countP_cons, ho, decide_False]
          simp

/-- Setting an option that the string holds keeps the number of items of every name; setting one
it does not hold adds one item of that name. -/
theorem set_count (name value : String) (hname : name ≠ "") :
    ∀ (l : List OptItem),
      (∀ other, other ≠ name →
        optCount (mnt_optstr_set_option l name value) other = optCount l other) ∧
      optCount (mnt_optstr_set_option l name value) name =
        (if optCount l name = 0 then 1 else optCount l name) := by
  intro l
  induction l with
  | nil =>
    refine ⟨fun other h => ?_, ?_⟩
    · simp [mnt_optstr_set_option, optCount, List.countP_cons, Ne.symm h, hname]
    · simp [mnt_optstr_set_option, optCount, List.countP_cons, hname]
  | cons o rest ih =>
    by_cases ho : o.1 = name
    · refine ⟨fun other h => ?_, ?_⟩
      · have hoo : o.1 ≠ other := fun h' => h (h'.symm.trans ho)
        simp [mnt_optstr_set_option, ho, optCount, List.countP_cons, Ne.symm h, hoo, hname]
      · simp [mnt_optstr_set_option, ho, optCount, List.countP_cons, hname]
    · have hn : ¬ (name ≠ "" ∧ o.1 = name) := fun hh => ho hh.2
      refine ⟨fun other h => ?_, ?_⟩
      · have := ih.1 other h
        simp only [mnt_optstr_set_option, if_neg hn]
        simp only [optCount, List.countP_cons] at this ⊢
        rw [this]
      · have := ih.2
        simp only [mnt_optstr_set_option, if_neg hn]
        simp only [optCount, List.countP_cons, hn, decide_False] at this ⊢
        simpa using this

/-- Every item of the string `mnt_optstr_set_option` makes is an item of the string before or
the item set. -/
theorem mem_set_option (l : List OptItem) (name value : String) :
    ∀ o ∈ mnt_optstr_set_option l name value, o ∈ l ∨ o = (name, some value) := by
  induction l with
  | nil =>
    intro o ho
    by_cases hname : name = ""
    · simp [mnt_optstr_set_option, hname] at ho
    · simp [mnt_optstr_set_option, hname] at ho
      exact Or.inr ho
  | cons x rest ih =>
    intro o ho
    by_cases hx : name ≠ "" ∧ x.1 = name
    · simp only [mnt_optstr_set_option, if_pos hx, List.mem_cons] at ho
      rcases ho with h | h
      · exact Or.inr h
      · exact Or.inl (List.mem_cons_of_mem _ h)
    · simp only [mnt_optstr_set_option, if_neg hx, List.mem_cons] at ho
      rcases ho with h | h
      · exact Or.inl (h ▸ List.mem_cons_self _ _)
      · rcases ih o h with h1 | h1
        · exact Or.inl (List.mem_cons_of_mem _ h1)
        · exact Or.inr h1

/-- Two searches that agree on the items of a list find the same in it. -/
theorem find_congr_of_mem (p q : OptItem → Bool) :
    ∀ l : List OptItem, (∀ o ∈ l, p o = q o) → l.find? p = l.find? q := by
  intro l
  induction l with
  | nil => intro _; rfl
  | cons x rest ih =>
    intro h
    have hx := h x (List.mem_cons_self _ _)
    have hr := ih (fun o ho => h o (List.mem_cons_of_mem _ ho))
    by_cases hp : p x = true
    · rw [List.find?_cons_of_pos _ hp, List.find?_cons_of_pos _ (hx ▸ hp)]
    · rw [List.find?_cons_of_neg _ hp, List.find?_cons_of_neg _ (hx ▸ hp), hr]

/-- When every item called `name` is of class `c`, the copy of class `c` holds `name` where the
whole string does, and no other copy holds it. -/
theorem locate_split (maps : OptItem → OptClass) (c c1 : OptClass) (l : List OptItem)
    (name : String) (h : ∀ o ∈ l, o.1 = name → maps o = c) :
    mnt_optstr_locate_option (splitOptstr maps c1 l) name =
      if c1 = c then mnt_optstr_locate_option l name else none := by
  unfold mnt_optstr_locate_option splitOptstr
  rw [List.find?_filter]
  by_cases hc : c1 = c
  · rw [if_pos hc]
    apply find_congr_of_mem
    intro o ho
    by_cases hn : name ≠ "" ∧ o.1 = name
    · simp [hn, hc, h o ho hn.2]
    · simp [hn]
  · rw [if_neg hc, List.find?_eq_none]
    intro o ho
    by_cases hn : name ≠ "" ∧ o.1 = name
    · simp [h o ho hn.2, Ne.symm hc]
    · simp [hn]

/-- What no item of the string is called is in none of the copies. -/
theorem locate_split_none (maps : OptItem → OptClass) (c : OptClass) (l : List OptItem)
    (name : String) (h : mnt_optstr_locate_option l name = none) :
    mnt_optstr_locate_option (splitOptstr maps c l) name = none := by
  unfold mnt_optstr_locate_option splitOptstr at *
  rw [List.find?_eq_none] at h ⊢
  intro o ho
  exact h o (List.mem_filter.1 ho).1

/-- What no item of the string is called, `mnt_fs_get_option` does not find. -/
theorem get_option_none (maps : OptItem → OptClass) (l : List OptItem) (name : String)
    (h : mnt_optstr_locate_option l name = none) : mnt_fs_get_option maps l name = none := by
  simp [mnt_fs_get_option, locate_split_none maps _ l name h]

/-- When every item called `name` is of one class, which is not the class of the items
libmount drops, `mnt_fs_get_option` finds the first item called `name`. -/
theorem get_option_of_class (maps : OptItem → OptClass) (c : OptClass) (l : List OptItem)
    (name : String) (h : ∀ o ∈ l, o.1 = name → maps o = c) (hc : c ≠ OptClass.ignored) :
    mnt_fs_get_option maps l name = mnt_optstr_locate_option l name := by
  unfold mnt_fs_get_option
  rw [locate_split maps c _ l name h, locate_split maps c _ l name h,
    locate_split maps c _ l name h]
  cases c with
  | ignored => exact absurd rfl hc
  | vfs => cases mnt_optstr_locate_option l name <;> simp
  | fs => cases mnt_optstr_locate_option l name <;> simp
  | user => cases mnt_optstr_locate_option l name <;> simp

/-- When libmount drops every item called `name`, `mnt_fs_get_option` does not find it. -/
theorem get_option_of_ignored (maps : OptItem → OptClass) (l : List OptItem) (name : String)
    (h : ∀ o ∈ l, o.1 = name → maps o = OptClass.ignored) :
    mnt_fs_get_option maps l name = none := by
  unfold mnt_fs_get_option
  rw [locate_split maps OptClass.ignored _ l name h, locate_split maps OptClass.ignored _ l name h,
    locate_split maps OptClass.ignored _ l name h]
  simp

/-- Setting one option leaves what `mnt_fs_get_option` finds under another name. -/
theorem get_option_set_other (maps : OptItem → OptClass) (l : List OptItem)
    (name value other : String) (h : other ≠ name) :
    mnt_fs_get_option maps (mnt_optstr_set_option l name value) other =
      mnt_fs_get_option maps l other := by
  have key : ∀ c, mnt_optstr_locate_option
      (splitOptstr maps c (mnt_optstr_set_option l name value)) other =
      mnt_optstr_locate_option (splitOptstr maps c l) other := by
    intro c
    unfold mnt_optstr_locate_option splitOptstr
    rw [List.find?_filter, List.find?_filter]
    exact find_set_of_reject _ name value
      (fun o ho => by
        have : ¬ (other ≠ "" ∧ o.1 = other) := fun hh => h (hh.2.symm.trans ho)
        simp [this]) l
  simp only [mnt_fs_get_option, key]

/-- Removing one option leaves what `mnt_fs_get_option` finds under another name. -/
theorem get_option_remove_other (maps : OptItem → OptClass) (name other : String)
    (h : other ≠ name) (l l1 : List OptItem) (hr : mnt_optstr_remove_option l name = some l1) :
    mnt_fs_get_option maps l1 other = mnt_fs_get_option maps l other := by
  have key : ∀ c, mnt_optstr_locate_option (splitOptstr maps c l1) other =
      mnt_optstr_locate_option (splitOptstr maps c l) other := by
    intro c
    unfold mnt_optstr_locate_option splitOptstr
    rw [List.find?_filter, List.find?_filter]
    exact find_remove_of_reject _ name
      (fun o ho => by
        have : ¬ (other ≠ "" ∧ o.1 = other) := fun hh => h (hh.2.symm.trans ho)
        simp [this]) l l1 hr
  simp only [mnt_fs_get_option, key]

namespace Mount

/-! ## Mount: option edits -/

/-- With a record held, `find` changes nothing and succeeds. -/
theorem find_of_held (fs : FileSystem) (m : Mount) (r : MntFs) (h : m.mnt_fs = some r) :
    find fs m = (m, Except.ok ()) := by
  simp [find, getTabEntry, h]

/-- With a record held, `getOption` reads what `mnt_fs_get_option` finds in its option
string. -/
theorem getOption_of_held (maps : OptItem → OptClass) (fs : FileSystem) (m : Mount) (r : MntFs)
    (name : String) (h : m.mnt_fs = some r) :
    getOption maps fs m name =
      (m, match r.optstr with
        | none => Except.error Exception.optionNotPresent
        | some opts =>
          match mnt_fs_get_option maps opts name with
          | none => Except.error Exception.optionNotPresent
          | some (_, none) => Except.error Exception.undefined
          | some (_, some value) => Except.ok value) := by
  simp only [getOption, find_of_held fs m r h, h]
  cases r.optstr with
  | none => rfl
  | some opts =>
    simp only
    split <;> simp_all

/-- With a record held that has an option string, `setOption` edits that string. -/
theorem setOption_of_held (fs : FileSystem) (m : Mount) (r : MntFs) (opts : List OptItem)
    (name value : String) (h : m.mnt_fs = some r) (ho : r.optstr = some opts) :
    setOption fs m name value =
      ({ m with mnt_fs := some { r with optstr := some (mnt_optstr_set_option opts name value) } },
        Except.ok ()) := by
  simp [setOption, find_of_held fs m r h, h, ho]

/-- With a record held that has an option string, `removeOption` edits that string, or fails
when no item carries the name. -/
theorem removeOption_of_held (fs : FileSystem) (m : Mount) (r : MntFs) (opts : List OptItem)
    (name : String) (h : m.mnt_fs = some r) (ho : r.optstr = some opts) :
    removeOption fs m name =
      match mnt_optstr_remove_option opts name with
      | none => (m, Except.error Exception.optionNotRemoved)
      | some new_opts =>
        ({ m with mnt_fs := some { r with optstr := some new_opts } }, Except.ok ()) := by
  simp only [removeOption, find_of_held fs m r h, h, ho]

/-- A successful `find` leaves a record held. -/
theorem find_held (fs : FileSystem) (m : Mount) (h : (find fs m).2 = Except.ok ()) :
    ∃ r, (find fs m).1.mnt_fs = some r := by
  unfold find at h ⊢
  split at h
  · simp at h
  · next m1 u heq =>
    split at h
    · simp at h
    · next hsome =>
      simp only [hsome, if_false]
      cases hm : m1.mnt_fs with
      | none => simp [hm] at hsome
      | some r => exact ⟨r, by simp [hm]⟩

/-- The option functions start with `find`: on an object whose record is found they act as on
the object `find` leaves. -/
theorem option_ops_after_find (fs : FileSystem) (m : Mount) (h : (find fs m).2 = Except.ok ()) :
    (∀ maps name, getOption maps fs m name = getOption maps fs (find fs m).1 name) ∧
    (∀ name value, setOption fs m name value = setOption fs (find fs m).1 name value) ∧
    (∀ name, removeOption fs m name = removeOption fs (find fs m).1 name) := by
  obtain ⟨r, hr⟩ := find_held fs m h
  have hidem := find_of_held fs (find fs m).1 r hr
  rcases hf : find fs m with ⟨m1, res⟩
  rw [hf] at h hidem hr
  simp only at h hidem hr
  subst h
  refine ⟨fun maps name => ?_, fun name value => ?_, fun name => ?_⟩
  · simp only [getOption, hf, hidem]
  · simp only [setOption, hf, hidem]
  · simp only [removeOption, hf, hidem]

/-- C8, as stated, fails in three places.  The record of `/data` names `x-systemd.requires`
twice: `removeOption` of that name succeeds, the option string still holds the name, and
`getOption` returns the second value instead of failing.  The object for `/mnt/y` holds a
record made by `setSource`, which has no option string: `setOption("ro", "1")` throws, and
`getOption("ro")` fails afterwards instead of returning the value.  On the `/etc` record of
the example fstab `setOption("defaults", "1")` succeeds and puts the value into the option
string, yet `getOption("defaults")` fails afterwards, with the `std::range_error`: libmount
drops `defaults` from the copies of the options in which `getOption` looks. -/
theorem option_edits_on_duplicate_and_missing_options :
    ((removeOption demoDupFs (Mount.new "/data" 0) "x-systemd.requires").2 = Except.ok () ∧
      (removeOption demoDupFs (Mount.new "/data" 0) "x-systemd.requires").1.mnt_fs.bind
          (fun r => r.optstr) =
        some [("ro", none), ("x-systemd.requires", some "b.mount")] ∧
      (getOption demoOptClass demoDupFs
        (removeOption demoDupFs (Mount.new "/data" 0) "x-systemd.requires").1
        "x-systemd.requires").2 = Except.ok "b.mount") ∧
    ((setSource demoDupFs (Mount.new "/mnt/y" 0) "/dev/vdc").2 = Except.ok () ∧
      (setOption demoDupFs (setSource demoDupFs (Mount.new "/mnt/y" 0) "/dev/vdc").1 "ro" "1").2 =
        Except.error Exception.noOptions ∧
      (getOption demoOptClass demoDupFs
        (setOption demoDupFs (setSource demoDupFs (Mount.new "/mnt/y" 0) "/dev/vdc").1 "ro" "1").1
        "ro").2 = Except.error Exception.optionNotPresent) ∧
    ((setOption demoFs (Mount.new "/mnt/x" 0) "defaults" "1").2 = Except.ok () ∧
      (setOption demoFs (Mount.new "/mnt/x" 0) "defaults" "1").1.mnt_fs.bind (fun r => r.optstr) =
        some [("defaults", some "1")] ∧
      (getOption demoOptClass demoFs (setOption demoFs (Mount.new "/mnt/x" 0) "defaults" "1").1
        "defaults").2 = Except.error Exception.optionNotPresent) := by
  decide

/-- C8, amended: for a `Mount` whose record is found and has an option string, option names
`k` and `k1` with `k1` different from `k`, and a value `v`, `k` and `v` free of the characters
at which an option string is cut: `setOption(k, v)` succeeds; `getOption(k)` returns `v`
afterwards, wherever `k` stood before, provided `k` and `v` are not empty (an empty name is
never found, and how `k=` with nothing behind it is kept differs between versions of libmount)
and libmount files `k=v` and every item called `k` in the option string under one class of
option, which is not the class of the items it drops (`maps` stands for its option maps; it
drops `defaults`); when it drops them all, `getOption(k)` fails afterwards with the
`std::range_error`; `getOption(k1)` gives after `setOption(k, v)` and after `removeOption(k)`
what it gave before; and when `k` occurs at most once in the option string, then after
`removeOption(k)` the option string does not hold `k` and `getOption(k)` fails with the
`std::range_error`. -/
theorem option_edit_laws (maps : OptItem → OptClass) (fs : FileSystem) (m : Mount) (r : MntFs)
    (opts : List OptItem) (k k1 v : String) (hfound : (find fs m).2 = Except.ok ())
    (hrec : (find fs m).1.mnt_fs = some r) (hopts : r.optstr = some opts) (hne : k1 ≠ k) :
    plainWord k = true → plainWord v = true →
    (setOption fs m k v).2 = Except.ok () ∧
    (∀ c : OptClass, k ≠ "" → v ≠ "" → c ≠ OptClass.ignored → maps (k, some v) = c →
      (∀ o ∈ opts, o.1 = k → maps o = c) →
      (getOption maps fs (setOption fs m k v).1 k).2 = Except.ok v) ∧
    (v ≠ "" → maps (k, some v) = OptClass.ignored →
      (∀ o ∈ opts, o.1 = k → maps o = OptClass.ignored) →
      ∃ e, (getOption maps fs (setOption fs m k v).1 k).2 = Except.error e ∧
        e.isRangeError = true) ∧
    (getOption maps fs (setOption fs m k v).1 k1).2 = (getOption maps fs m k1).2 ∧
    (getOption maps fs (removeOption fs m k).1 k1).2 = (getOption maps fs m k1).2 ∧
    (optCount opts k ≤ 1 →
      (∃ e, (getOption maps fs (removeOption fs m k).1 k).2 = Except.error e ∧
        e.isRangeError = true) ∧
      ∃ r1 opts1, (removeOption fs m k).1.mnt_fs = some r1 ∧ r1.optstr = some opts1 ∧
        mnt_optstr_locate_option opts1 k = none) := by
  intro _ _
  obtain ⟨hget, hset, hrem⟩ := option_ops_after_find fs m hfound
  rw [hset k v, hrem k, hget maps k1, setOption_of_held fs _ r opts k v hrec hopts,
    removeOption_of_held fs _ r opts k hrec hopts]
  have hclass : ∀ c : OptClass, maps (k, some v) = c →
      (∀ o ∈ opts, o.1 = k → maps o = c) →
      ∀ o ∈ mnt_optstr_set_option opts k v, o.1 = k → maps o = c := by
    intro c hkv hall o ho hok
    rcases mem_set_option opts k v o ho with h | h
    · exact hall o h hok
    · rw [h]; exact hkv
  refine ⟨rfl, ?_, ?_, ?_, ?_, ?_⟩
  · intro c hk _ hc hkv hall
    rw [getOption_of_held maps fs _ _ k rfl]
    simp only
    rw [get_option_of_class maps c _ k (hclass c hkv hall) hc, locate_set_same opts k v hk]
  · intro _ hkv hall
    refine ⟨Exception.optionNotPresent, ?_, rfl⟩
    rw [getOption_of_held maps fs _ _ k rfl]
    simp only
    rw [get_option_of_ignored maps _ k (hclass _ hkv hall)]
  · rw [getOption_of_held maps fs _ _ k1 rfl, getOption_of_held maps fs _ r k1 hrec]
    simp [get_option_set_other maps opts k v k1 hne, hopts]
  · cases hr : mnt_optstr_remove_option opts k with
    | none => rfl
    | some l1 =>
      simp only
      rw [getOption_of_held maps fs _ _ k1 rfl, getOption_of_held maps fs _ r k1 hrec]
      simp [get_option_remove_other maps k k1 hne opts l1 hr, hopts]
  · intro hcount
    have hrc := remove_count k opts
    cases hr : mnt_optstr_remove_option opts k with
    | none =>
      have h0 : optCount opts k = 0 := by
        by_contra hpos
        obtain ⟨l1, h1, -⟩ := hrc.2 (Nat.pos_of_ne_zero hpos)
        rw [hr] at h1
        simp at h1
      have hloc := (locate_eq_none_iff opts k).2 h0
      simp only
      refine ⟨⟨Exception.optionNotPresent, ?_, rfl⟩, r, opts, hrec, hopts, hloc⟩
      rw [getOption_of_held maps fs _ r k hrec]
      simp [hopts, get_option_none maps opts k hloc]
    | some l1 =>
      have h0 : optCount l1 k = 0 := by
        by_cases hpos : optCount opts k = 0
        · rw [hrc.1 hpos] at hr
          simp at hr
        · obtain ⟨l2, h1, h2⟩ := hrc.2 (Nat.pos_of_ne_zero hpos)
          rw [hr] at h1
          simp only [Option.some.injEq] at h1
          subst h1
          omega
      have hloc := (locate_eq_none_iff l1 k).2 h0
      simp only
      refine ⟨⟨Exception.optionNotPresent, ?_, rfl⟩, _, l1, rfl, rfl, hloc⟩
      rw [getOption_of_held maps fs _ _ k rfl]
      simp [get_option_none maps l1 k hloc]

/-- Witness for `option_edit_laws`: the `/etc` record of the example fstab, with
`k = "upperdir"` and `k1 = "lowerdir"`, which libmount files under the filesystem-specific
options. -/
theorem option_edit_laws_witness :
    ((find demoFs (Mount.new "/etc" Mount.defaultFlags)).2 = Except.ok () ∧
      (find demoFs (Mount.new "/etc" Mount.defaultFlags)).1.mnt_fs = some demoEtc3 ∧
      demoEtc3.optstr = some [("defaults", none),
        ("lowerdir", some "/sysroot/var/lib/overlay/2/etc:/sysroot/var/lib/overlay/1/etc:/sysroot/var/lib/overlay/0/etc"),
        ("upperdir", some "/sysroot/var/lib/overlay/3/etc"),
        ("workdir", some "/sysroot/var/lib/overlay/3/work-etc")] ∧
      "lowerdir" ≠ "upperdir" ∧ plainWord "upperdir" = true ∧ plainWord "/u" = true) ∧
    (getOption demoOptClass demoFs
      (setOption demoFs (Mount.new "/etc" Mount.defaultFlags) "upperdir" "/u").1 "upperdir").2 =
      Except.ok "/u" :=
  ⟨⟨by decide, by decide, by decide, by decide, by decide, by decide⟩,
    (option_edit_laws demoOptClass demoFs (Mount.new "/etc" Mount.defaultFlags) demoEtc3
      [("defaults", none),
        ("lowerdir", some "/sysroot/var/lib/overlay/2/etc:/sysroot/var/lib/overlay/1/etc:/sysroot/var/lib/overlay/0/etc"),
        ("upperdir", some "/sysroot/var/lib/overlay/3/etc"),
        ("workdir", some "/sysroot/var/lib/overlay/3/work-etc")] "upperdir" "lowerdir" "/u"
      (by decide) (by decide) (by decide) (by decide) (by decide) (by decide)).2.1 OptClass.fs
      (by decide) (by decide) (by decide) (by decide) (by decide)⟩

/-- The lookup of the table entry leaves target and flags as they are. -/
theorem getTabEntry_target_flags (fs : FileSystem) (m : Mount) :
    (getTabEntry fs m).1.target = m.target ∧ (getTabEntry fs m).1.flags = m.flags := by
  unfold getTabEntry
  split
  · exact ⟨rfl, rfl⟩
  · split <;> exact ⟨rfl, rfl⟩

/-- `find` leaves target and flags as they are. -/
theorem find_target_flags (fs : FileSystem) (m : Mount) :
    (find fs m).1.target = m.target ∧ (find fs m).1.flags = m.flags := by
  have h := getTabEntry_target_flags fs m
  unfold find
  split
  · next m1 e heq => rw [heq] at h; exact h
  · next m1 u heq =>
    rw [heq] at h
    split <;> exact h

/-- A `getOption` that returns a value leaves the object as `find` does, with a record held
that has an option string. -/
theorem getOption_ok_held (maps : OptItem → OptClass) (fs : FileSystem) (m : Mount)
    (name value : String) (h : (getOption maps fs m name).2 = Except.ok value) :
    (getOption maps fs m name).1 = (find fs m).1 ∧
    ∃ r opts, (getOption maps fs m name).1.mnt_fs = some r ∧ r.optstr = some opts := by
  have hfound : (find fs m).2 = Except.ok () := by
    unfold getOption at h
    split at h
    · simp at h
    · next m1 u heq => rw [heq]
  obtain ⟨r, hr⟩ := find_held fs m hfound
  rw [(option_ops_after_find fs m hfound).1 maps name, getOption_of_held maps fs _ r name hr] at h ⊢
  refine ⟨rfl, r, ?_⟩
  cases ho : r.optstr with
  | none => simp [ho] at h
  | some opts => exact ⟨opts, hr, rfl⟩

end Mount

namespace Overlay

/-- With a record held that has an option string, `updateMountDirs` sets the three overlay
options in it. -/
theorem updateMountDirs_of_held (o : Overlay) (fs : FileSystem) (m : Mount) (pfx : String)
    (r : MntFs) (opts : List OptItem) (h : m.mnt_fs = some r) (ho : r.optstr = some opts) :
    updateMountDirs o fs m pfx =
      ({ m with mnt_fs := some { r with optstr := some (overlayOptions o pfx opts) } },
        Except.ok ()) := by
  simp only [updateMountDirs]
  rw [Mount.setOption_of_held fs m r opts _ _ h ho]
  simp only
  rw [Mount.setOption_of_held fs _ _ _ _ _ rfl rfl]
  simp only
  rw [Mount.setOption_of_held fs _ _ _ _ _ rfl rfl]
  rfl

/-- The option string `updateMountDirs` leaves holds `lowerdir`, `upperdir` and `workdir`, and
`upperdir` as often as before, at least once. -/
theorem overlayOptions_spec (o : Overlay) (pfx : String) (opts : List OptItem) :
    mnt_optstr_locate_option (overlayOptions o pfx opts) "lowerdir" =
        some ("lowerdir", some (lowerOption o pfx)) ∧
    mnt_optstr_locate_option (overlayOptions o pfx opts) "workdir" =
        some ("workdir", some (pathAppend pfx (relative_path o.workdir))) ∧
    optCount (overlayOptions o pfx opts) "upperdir" =
        (if optCount opts "upperdir" = 0 then 1 else optCount opts "upperdir") := by
  refine ⟨?_, ?_, ?_⟩
  · unfold overlayOptions
    rw [locate_set_other _ _ _ _ (by decide), locate_set_other _ _ _ _ (by decide),
      locate_set_same _ _ _ (by decide)]
  · unfold overlayOptions
    rw [locate_set_same _ _ _ (by decide)]
  · unfold overlayOptions
    rw [(set_count "workdir" _ (by decide) _).1 "upperdir" (by decide),
      (set_count "upperdir" _ (by decide) _).2,
      (set_count "lowerdir" _ (by decide) _).1 "upperdir" (by decide)]

/-- C7, as stated, fails: in the example world `sync` reaches the consolidation mount, and the
option string of the record it mounts at `/var/lib/overlay/0/sync/etc` still holds the
`workdir` option. -/
theorem sync_mount_keeps_workdir_option :
    (Overlay.sync demoConfig demoKernel demoFs (Overlay.new demoConfig demoFs "3").1
        "/.snapshots/4/snapshot").2.2.1.head? =
      some (Event.mount
        { source := some "overlay", target := some "/var/lib/overlay/0/sync/etc",
          fstype := some "overlay",
          optstr := some [("defaults", none),
            ("lowerdir", some "/var/lib/overlay/0/etc:/.snapshots/0/snapshot/etc"),
            ("workdir", some "/var/lib/overlay/0/work-etc")],
          id := 0, parent := 0 } 0) ∧
    mnt_optstr_locate_option [("defaults", none),
        ("lowerdir", some "/var/lib/overlay/0/etc:/.snapshots/0/snapshot/etc"),
        ("workdir", some "/var/lib/overlay/0/work-etc")] "workdir" =
      some ("workdir", some "/var/lib/overlay/0/work-etc") := by
  set_option maxRecDepth 100000 in decide

/-- C7, amended: when both `upperdir` options are read and differ and the overlay of the
oldest snapshot has lowerdirs, `sync` issues the consolidation mount, for target `/etc` below
the staging path; the option string of the mounted record holds a `lowerdir` option and the
`workdir` option `updateMountDirs` has set, and it holds no `upperdir` option provided the
recorded `/etc` entry of the oldest snapshot names `upperdir` at most once. -/
theorem sync_mount_options (cfg : Config) (k : Kernel) (fs : FileSystem) (o : Overlay)
    (snapshot a b : String)
    (hold : (((Mount.new "/etc" Mount.defaultFlags).setTabSource
        (pathAppend (pathAppend (cfg.snapRoot (getOldestSnapshot cfg o)) "etc") "fstab")).getOption
          cfg.optClass fs "upperdir").2 = Except.ok a)
    (hcur : ((Mount.new "/etc" Mount.defaultFlags).getOption cfg.optClass fs "upperdir").2 = Except.ok b)
    (hne : a ≠ b)
    (hlow : (Overlay.new cfg fs (getOldestSnapshot cfg o)).1.lowerdirs ≠ []) :
    ∃ (r : MntFs) (opts : List OptItem),
      (sync cfg k fs o snapshot).2.2.1.head? = some (Event.mount r Mount.defaultFlags) ∧
      r.target = some (pathAppend
        (parent_path (Overlay.new cfg fs (getOldestSnapshot cfg o)).1.upperdir) "sync" ++ "/etc") ∧
      r.optstr = some opts ∧
      mnt_optstr_locate_option opts "lowerdir" ≠ none ∧
      mnt_optstr_locate_option opts "workdir" ≠ none ∧
      ∀ r0 opts0, (((Mount.new "/etc" Mount.defaultFlags).setTabSource
          (pathAppend (pathAppend (cfg.snapRoot (getOldestSnapshot cfg o)) "etc") "fstab")).getOption
            cfg.optClass fs "upperdir").1.mnt_fs = some r0 → r0.optstr = some opts0 →
        optCount opts0 "upperdir" ≤ 1 → mnt_optstr_locate_option opts "upperdir" = none := by
  obtain ⟨hstate, r0, opts0, hr0, ho0⟩ := Mount.getOption_ok_held cfg.optClass fs _ _ _ hold
  have htf := Mount.find_target_flags fs ((Mount.new "/etc" Mount.defaultFlags).setTabSource
    (pathAppend (pathAppend (cfg.snapRoot (getOldestSnapshot cfg o)) "etc") "fstab"))
  rw [← hstate] at htf
  rcases h1 : ((Mount.new "/etc" Mount.defaultFlags).setTabSource
      (pathAppend (pathAppend (cfg.snapRoot (getOldestSnapshot cfg o)) "etc") "fstab")).getOption
        cfg.optClass fs "upperdir" with ⟨e1, res1⟩
  rcases h2 : (Mount.new "/etc" Mount.defaultFlags).getOption cfg.optClass fs "upperdir" with ⟨e2, res2⟩
  rw [h1] at hold hr0 htf
  rw [h2] at hcur
  simp only at hold hcur hr0 htf
  subst hold hcur
  have htarget : e1.target = "/etc" := htf.1
  have hflags : e1.flags = Mount.defaultFlags := htf.2
  obtain ⟨last, hlast⟩ : ∃ last, (Overlay.new cfg fs (getOldestSnapshot cfg o)).1.lowerdirs.getLast? =
      some last := by
    cases hl : (Overlay.new cfg fs (getOldestSnapshot cfg o)).1.lowerdirs.getLast? with
    | none => exact absurd (List.getLast?_eq_none_iff.1 hl) hlow
    | some last => exact ⟨last, rfl⟩
  have hspec := overlayOptions_spec
    { (Overlay.new cfg fs (getOldestSnapshot cfg o)).1 with
      lowerdirs := (Overlay.new cfg fs (getOldestSnapshot cfg o)).1.upperdir ::
        ((Overlay.new cfg fs (getOldestSnapshot cfg o)).1.lowerdirs.dropLast ++
          [pathAppend (cfg.snapRoot (getOldestSnapshot cfg o)) (relative_path last)]) }
    cfg.defaultPrefix opts0
  obtain ⟨hlower, hwork, hcount⟩ := hspec
  have hpos : 0 < optCount (overlayOptions
      { (Overlay.new cfg fs (getOldestSnapshot cfg o)).1 with
        lowerdirs := (Overlay.new cfg fs (getOldestSnapshot cfg o)).1.upperdir ::
          ((Overlay.new cfg fs (getOldestSnapshot cfg o)).1.lowerdirs.dropLast ++
            [pathAppend (cfg.snapRoot (getOldestSnapshot cfg o)) (relative_path last)]) }
      cfg.defaultPrefix opts0) "upperdir" := by
    rw [hcount]; split <;> omega
  obtain ⟨l1, hl1, hc1⟩ := (remove_count "upperdir" _).2 hpos
  refine ⟨{ r0 with
      optstr := some l1,
      target := some (pathAppend
        (parent_path (Overlay.new cfg fs (getOldestSnapshot cfg o)).1.upperdir) "sync" ++ "/etc") },
    l1, ?_, rfl, rfl, ?_, ?_, ?_⟩
  · simp only [sync, h1, h2, if_neg hne, syncStack, hlast]
    rw [updateMountDirs_of_held _ _ e1 _ r0 opts0 hr0 ho0]
    simp only
    rw [Mount.removeOption_of_held _ _ _ _ "upperdir" rfl rfl, hl1]
    simp only [Mount.mount, hflags, htarget]
    split_ifs <;> rfl
  · rw [locate_remove_other "upperdir" "lowerdir" (by decide) _ l1 hl1, hlower]
    simp
  · rw [locate_remove_other "upperdir" "workdir" (by decide) _ l1 hl1, hwork]
    simp
  · intro r0' opts0' hr0' ho0' hle
    simp only at hr0'
    rw [hr0] at hr0'
    simp only [Option.some.injEq] at hr0'
    subst hr0'
    rw [ho0] at ho0'
    simp only [Option.some.injEq] at ho0'
    subst ho0'
    rw [locate_eq_none_iff]
    rw [hcount] at hc1
    split at hc1 <;> omega

/-- Witness for `sync_mount_options`: the example world, where the oldest referenced snapshot
is 0 and the running system is snapshot 3. -/
theorem sync_mount_options_witness :
    ((((Mount.new "/etc" Mount.defaultFlags).setTabSource
        (pathAppend (pathAppend (demoConfig.snapRoot (getOldestSnapshot demoConfig
          (Overlay.new demoConfig demoFs "3").1)) "etc") "fstab")).getOption
          demoConfig.optClass demoFs "upperdir").2 = Except.ok "/sysroot/var/lib/overlay/0/etc" ∧
      ((Mount.new "/etc" Mount.defaultFlags).getOption demoConfig.optClass demoFs "upperdir").2 =
        Except.ok "/sysroot/var/lib/overlay/3/etc" ∧
      "/sysroot/var/lib/overlay/0/etc" ≠ "/sysroot/var/lib/overlay/3/etc" ∧
      (Overlay.new demoConfig demoFs
        (getOldestSnapshot demoConfig (Overlay.new demoConfig demoFs "3").1)).1.lowerdirs ≠ []) ∧
    ∃ (r : MntFs) (opts : List OptItem),
      (sync demoConfig demoKernel demoFs (Overlay.new demoConfig demoFs "3").1
        "/.snapshots/4/snapshot").2.2.1.head? = some (Event.mount r Mount.defaultFlags) ∧
      r.target = some (pathAppend
        (parent_path (Overlay.new demoConfig demoFs (getOldestSnapshot demoConfig
          (Overlay.new demoConfig demoFs "3").1)).1.upperdir) "sync" ++ "/etc") ∧
      r.optstr = some opts ∧
      mnt_optstr_locate_option opts "lowerdir" ≠ none ∧
      mnt_optstr_locate_option opts "workdir" ≠ none ∧
      ∀ r0 opts0, (((Mount.new "/etc" Mount.defaultFlags).setTabSource
          (pathAppend (pathAppend (demoConfig.snapRoot (getOldestSnapshot demoConfig
            (Overlay.new demoConfig demoFs "3").1)) "etc") "fstab")).getOption
            demoConfig.optClass demoFs "upperdir").1.mnt_fs = some r0 → r0.optstr = some opts0 →
        optCount opts0 "upperdir" ≤ 1 → mnt_optstr_locate_option opts "upperdir" = none :=
  ⟨⟨by decide, by decide, by decide, by decide⟩,
    sync_mount_options demoConfig demoKernel demoFs (Overlay.new demoConfig demoFs "3").1
      "/.snapshots/4/snapshot" "/sysroot/var/lib/overlay/0/etc" "/sysroot/var/lib/overlay/3/etc"
      (by decide) (by decide) (by decide) (by decide)⟩

end Overlay

/-! ## BindMount and PropagatedBindMount -/

/-- C9, as stated, fails in its second half: the example fstab has an entry for `/mnt/x`
with source `/dev/vdb1`, yet a `BindMount` for `/mnt/x` that is mounted right after its
construction mounts a record whose source is `/mnt/x`: the table is never read. -/
theorem bindMount_ignores_table_entry :
    (mnt_table_parse_file demoFs "/etc/fstab").bind
        (fun tb => mnt_table_find_target tb (some "/mnt/x")) = some demoFstabX ∧
    demoFstabX.source = some "/dev/vdb1" ∧
    (BindMount.mount demoKernel demoFs (BindMount.new "/mnt/x" 0) "/.snapshots/4/snapshot").2.2.1 =
      [Event.mount
        { source := some "/mnt/x", target := some "/.snapshots/4/snapshot/mnt/x", fstype := none,
          optstr := none, id := 0, parent := 0 } 4096] := by
  decide

/-- C9, amended: for every target `t`, prefix `p` and flags `f`, a `BindMount(t, f)` that
holds no record when `mount(p)` is called (nothing was looked up or set on it, whatever the
table holds, or a lookup found no entry for `t`) mounts a record whose source is `t` and whose
target is `p` followed by `t`, with flags `f | MS_BIND`.  An object that holds a record (found
by an earlier lookup or made by a setter) mounts that record, with only the target changed,
and no source is made up.  A `PropagatedBindMount(t, f)` mounts with flags
`f | MS_BIND | MS_REC | MS_SLAVE`. -/
theorem bindMount_mount (k : Kernel) (fs : FileSystem) (t p : String) (f : Nat) :
    (BindMount.mount k fs (BindMount.new t f) p).2.2.1 =
      [Event.mount { mnt_new_fs with source := some t, target := some (p ++ t) } (f ||| MS_BIND)] ∧
    (∀ tb, mnt_table_parse_file fs "/etc/fstab" = some tb →
      mnt_table_find_target tb (some t) = none →
      (Mount.isMount fs (BindMount.new t f)).2 = Except.ok false ∧
      (BindMount.mount k fs (Mount.isMount fs (BindMount.new t f)).1 p).2.2.1 =
        [Event.mount { mnt_new_fs with source := some t, target := some (p ++ t) }
          (f ||| MS_BIND)]) ∧
    (∀ (m : Mount) (r : MntFs), m.mnt_fs = some r →
      (BindMount.mount k fs m p).2.2.1 =
        [Event.mount { r with target := some (p ++ m.target) } m.flags]) ∧
    (BindMount.mount k fs (PropagatedBindMount.new t f) p).2.2.1 =
      [Event.mount { mnt_new_fs with source := some t, target := some (p ++ t) }
        (f ||| MS_BIND ||| MS_REC ||| MS_SLAVE)] := by
  refine ⟨?_, ?_, ?_, ?_⟩
  · simp [BindMount.mount, BindMount.new, Mount.new, Mount.mount]
  · intro tb hparse hnone
    have hm : Mount.isMount fs (BindMount.new t f) =
        ({ BindMount.new t f with mnt_table := tb, mnt_fs := none }, Except.ok false) := by
      simp [Mount.isMount, Mount.getTabEntry, BindMount.new, Mount.new, hparse, hnone]
    rw [hm]
    simp [BindMount.mount, BindMount.new, Mount.new, Mount.mount]
  · intro m r hr
    simp [BindMount.mount, Mount.mount, hr]
  · have hflags : f ||| MS_REC ||| MS_SLAVE ||| MS_BIND = f ||| MS_BIND ||| MS_REC ||| MS_SLAVE := by
      rw [Nat.lor_assoc f MS_REC MS_SLAVE, Nat.lor_assoc f _ MS_BIND,
        Nat.lor_comm (MS_REC ||| MS_SLAVE) MS_BIND, ← Nat.lor_assoc f MS_BIND _,
        ← Nat.lor_assoc (f ||| MS_BIND) MS_REC MS_SLAVE]
    simp [BindMount.mount, PropagatedBindMount.new, BindMount.new, Mount.new, Mount.mount, hflags]

/-- Witness for `bindMount_mount`: the object for `/etc` that has found its record in the
example fstab mounts that record, source `overlay` included. -/
theorem bindMount_mount_witness :
    (Mount.find demoFs (BindMount.new "/etc" Mount.defaultFlags)).1.mnt_fs = some demoEtc3 ∧
    (BindMount.mount demoKernel demoFs (Mount.find demoFs (BindMount.new "/etc" Mount.defaultFlags)).1 "/p").2.2.1 =
      [Event.mount
        { demoEtc3 with target := some ("/p" ++ (Mount.find demoFs (BindMount.new "/etc" Mount.defaultFlags)).1.target) }
        (Mount.find demoFs (BindMount.new "/etc" Mount.defaultFlags)).1.flags] :=
  ⟨by decide,
    (bindMount_mount demoKernel demoFs "/etc" "/p" 0).2.2.1
      (Mount.find demoFs (BindMount.new "/etc" Mount.defaultFlags)).1 demoEtc3 (by decide)⟩

namespace Mount

/-! ## Mount::persist -/

end Mount

/-! ## Overlay::create on any parent chain -/

/-- Entries at the end that the predicate accepts do not matter to `rdropWhile`. -/
theorem rdropWhile_append_of_all {α : Type} (p : α → Bool) (A : List α) :
    ∀ B : List α, (∀ y ∈ B, p y = true) → (A ++ B).rdropWhile p = A.rdropWhile p := by
  intro B
  induction B using List.reverseRecOn with
  | nil => intro _; simp
  | append_singleton B b ih =>
    intro h
    rw [← List.append_assoc, List.rdropWhile_concat_pos _ _ _ (h b (by simp))]
    exact ih (fun y hy => h y (by simp [hy]))

/-- Everything up to an entry the predicate rejects survives `rdropWhile`. -/
theorem prefix_rdropWhile_of_reject {α : Type} (p : α → Bool) (A : List α) (y : α)
    (hy : p y = false) : ∀ B : List α, (A ++ [y]) <+: (A ++ [y] ++ B).rdropWhile p := by
  intro B
  induction B using List.reverseRecOn with
  | nil =>
    rw [List.append_nil, List.rdropWhile_concat_neg _ _ _ (by simp [hy])]
  | append_singleton B b ih =>
    rw [← List.append_assoc, List.rdropWhile_concat]
    split
    · exact ih
    · exact ⟨B ++ [b], by simp⟩

/-- What `rdropWhile` leaves, followed by the rest, is the list. -/
theorem rdropWhile_append_drop {α : Type} (p : α → Bool) (l : List α) :
    l.rdropWhile p ++ l.drop (l.rdropWhile p).length = l := by
  obtain ⟨t, ht⟩ := List.rdropWhile_prefix p (l := l)
  have hdrop : (l.rdropWhile p ++ t).drop (l.rdropWhile p).length = t := List.drop_left _ _
  rw [ht] at hdrop
  rw [hdrop, ht]

/-- The chain of the specification is no longer than the list it is made of. -/
theorem expectedChain_length_le (cfg : Config) (fs : FileSystem) (P : List String) :
    (Overlay.expectedChain cfg fs P).length ≤ P.length := by
  have h := congrArg List.length
    (rdropWhile_append_drop (fun l => !Overlay.snapshotExists cfg fs l) P)
  have hf := List.length_filter_le (fun l => decide (Overlay.getIdOfOverlayDir cfg l = ""))
    (P.drop (P.rdropWhile (fun l => !Overlay.snapshotExists cfg fs l)).length)
  simp only [Overlay.expectedChain, List.length_append] at h ⊢
  omega

/-- The chain of the specification for a list with one more entry at its end. -/
theorem expectedChain_concat (cfg : Config) (fs : FileSystem) (pre : List String) (x : String) :
    Overlay.expectedChain cfg fs (pre ++ [x]) =
      if Overlay.snapshotExists cfg fs x = true then pre ++ [x]
      else if Overlay.getIdOfOverlayDir cfg x = "" then Overlay.expectedChain cfg fs pre ++ [x]
      else Overlay.expectedChain cfg fs pre := by
  by_cases hx : Overlay.snapshotExists cfg fs x = true
  · rw [if_pos hx]
    simp only [Overlay.expectedChain]
    rw [List.rdropWhile_concat_neg _ _ _ (by simp [hx])]
    simp
  · rw [if_neg hx]
    have hle : (pre.rdropWhile (fun l => !Overlay.snapshotExists cfg fs l)).length ≤ pre.length :=
      (List.rdropWhile_prefix _ (l := pre)).length_le
    simp only [Overlay.expectedChain]
    rw [List.rdropWhile_concat_pos _ _ _ (by simpa using hx), List.drop_append_of_le_length hle,
      List.filter_append]
    by_cases hid : Overlay.getIdOfOverlayDir cfg x = ""
    · simp [hid]
    · simp [hid]

/-- One pass of the loop of `create`, the lowerdirs built so far being the chain of the
specification for the entries handled. -/
theorem createStep_expected (cfg : Config) (fs : FileSystem) (P pre rest : List String)
    (x : String) (hP : P = pre ++ x :: rest) :
    Overlay.createStep cfg fs P (Overlay.expectedChain cfg fs pre) pre.length x =
      Overlay.expectedChain cfg fs (pre ++ [x]) := by
  have hne : Overlay.expectedChain cfg fs pre ≠ P := by
    intro h
    have h1 := expectedChain_length_le cfg fs pre
    rw [h, hP] at h1
    simp at h1
  rw [expectedChain_concat]
  unfold Overlay.createStep
  rw [if_neg (fun h => hne h.2)]
  by_cases hid : Overlay.getIdOfOverlayDir cfg x = ""
  · simp [hid, Overlay.snapshotExists]
  · by_cases hd : is_directory fs (cfg.snapRoot (Overlay.getIdOfOverlayDir cfg x)) = true
    · simp [hid, hd, Overlay.snapshotExists, hP, List.take_append_eq_append_take]
    · simp [hid, hd, Overlay.snapshotExists]

/-- The loop of `create`, started on nothing, builds the chain of the specification. -/
theorem createLoop_expected (cfg : Config) (fs : FileSystem) (P : List String) :
    ∀ (rest pre : List String), P = pre ++ rest →
      Overlay.createLoop cfg fs P rest pre.length (Overlay.expectedChain cfg fs pre) =
        Overlay.expectedChain cfg fs P := by
  intro rest
  induction rest with
  | nil => intro pre hP; simp [Overlay.createLoop, hP]
  | cons x rest ih =>
    intro pre hP
    rw [Overlay.createLoop, createStep_expected cfg fs P pre rest x hP]
    have := ih (pre ++ [x]) (by simp [hP])
    simpa using this

/-- The chain of the specification when the last entry with an existing snapshot is `x`. -/
theorem expectedChain_of_last (cfg : Config) (fs : FileSystem) (front behind : List String)
    (x : String) (hx : Overlay.snapshotExists cfg fs x = true)
    (hb : ∀ y ∈ behind, Overlay.snapshotExists cfg fs y = false) :
    Overlay.expectedChain cfg fs (front ++ x :: behind) =
      front ++ x :: behind.filter (fun l => decide (Overlay.getIdOfOverlayDir cfg l = "")) := by
  have hsplit : front ++ x :: behind = (front ++ [x]) ++ behind := by simp
  have hkept : (front ++ x :: behind).rdropWhile (fun l => !Overlay.snapshotExists cfg fs l) =
      front ++ [x] := by
    rw [hsplit, rdropWhile_append_of_all _ _ behind (fun y hy => by simp [hb y hy]),
      List.rdropWhile_concat_neg _ _ _ (by simp [hx])]
  simp only [Overlay.expectedChain, hkept]
  rw [hsplit, List.drop_left]
  simp

/-- The chain of the specification when no entry has an existing snapshot. -/
theorem expectedChain_of_none (cfg : Config) (fs : FileSystem) (P : List String)
    (h : ∀ y ∈ P, Overlay.snapshotExists cfg fs y = false) :
    Overlay.expectedChain cfg fs P =
      P.filter (fun l => decide (Overlay.getIdOfOverlayDir cfg l = "")) := by
  have hkept : P.rdropWhile (fun l => !Overlay.snapshotExists cfg fs l) = [] :=
    List.rdropWhile_eq_nil_iff.2 (fun y hy => by simp [h y hy])
  simp [Overlay.expectedChain, hkept]

/-- An entry without a snapshot id is in the chain of the specification. -/
theorem mem_expectedChain_of_no_id (cfg : Config) (fs : FileSystem) (P : List String) (x : String)
    (hx : x ∈ P) (hid : Overlay.getIdOfOverlayDir cfg x = "") :
    x ∈ Overlay.expectedChain cfg fs P := by
  have h := rdropWhile_append_drop (fun l => !Overlay.snapshotExists cfg fs l) P
  rw [← h] at hx
  simp only [Overlay.expectedChain]
  rcases List.mem_append.1 hx with h1 | h1
  · exact List.mem_append_left _ h1
  · exact List.mem_append_right _ (List.mem_filter.2 ⟨h1, by simpa using hid⟩)

/-- An entry of a deleted snapshot is in the chain of the specification exactly when an entry
with an existing snapshot stands behind one of its occurrences. -/
theorem mem_expectedChain_of_deleted (cfg : Config) (fs : FileSystem) (P : List String)
    (x : String) (hid : Overlay.getIdOfOverlayDir cfg x ≠ "")
    (hgone : Overlay.snapshotExists cfg fs x = false) :
    x ∈ Overlay.expectedChain cfg fs P ↔
      ∃ l1 l2 y, P = l1 ++ x :: l2 ∧ y ∈ l2 ∧ Overlay.snapshotExists cfg fs y = true := by
  constructor
  · intro hx
    simp only [Overlay.expectedChain] at hx
    rcases List.mem_append.1 hx with h1 | h1
    · obtain ⟨l1, l2, hk⟩ := List.append_of_mem h1
      have hne : P.rdropWhile (fun l => !Overlay.snapshotExists cfg fs l) ≠ [] := by
        rw [hk]; simp
      have hlast := List.rdropWhile_last_not (fun l => !Overlay.snapshotExists cfg fs l) P hne
      have hP := rdropWhile_append_drop (fun l => !Overlay.snapshotExists cfg fs l) P
      cases l2 using List.reverseRecOn with
      | nil =>
        have : (P.rdropWhile (fun l => !Overlay.snapshotExists cfg fs l)).getLast hne = x := by
          simp [hk]
        rw [this] at hlast
        simp [hgone] at hlast
      | append_singleton l2 y =>
        have hy : (P.rdropWhile (fun l => !Overlay.snapshotExists cfg fs l)).getLast hne = y := by
          have hk2 : P.rdropWhile (fun l => !Overlay.snapshotExists cfg fs l) =
              (l1 ++ x :: l2) ++ [y] := by rw [hk]; simp
          simp [hk2]
        rw [hy] at hlast
        refine ⟨l1, l2 ++ [y] ++ P.drop (P.rdropWhile
          (fun l => !Overlay.snapshotExists cfg fs l)).length, y, ?_, by simp, by simpa using hlast⟩
        conv_lhs => rw [← hP]
        rw [hk]
        simp
    · have := (List.mem_filter.1 h1).2
      simp at this
      exact absurd this hid
  · rintro ⟨l1, l2, y, hP, hy, hex⟩
    obtain ⟨m1, m2, hm⟩ := List.append_of_mem hy
    have hpre := prefix_rdropWhile_of_reject (fun l => !Overlay.snapshotExists cfg fs l)
      (l1 ++ x :: m1) y (by simp [hex]) m2
    have hPeq : P = l1 ++ x :: m1 ++ [y] ++ m2 := by rw [hP, hm]; simp
    rw [← hPeq] at hpre
    simp only [Overlay.expectedChain]
    exact List.mem_append_left _ (hpre.subset (by simp))

/-- C11: for an overlay whose lowerdirs are empty before the call and any parent chain `P`,
`create(base)` yields the parent's upperdir followed by the chain the specification words:
`P` up to and including the last entry whose snapshot still exists, then the entries behind
it that carry no snapshot id, in their order; when no entry has an existing snapshot, the
parent's upperdir followed by all entries of `P` without an id.  Hence an entry without an id
is never dropped, and an entry of a deleted snapshot is kept exactly when an entry with an
existing snapshot stands behind it.  Existence is read in the file system as `create` leaves
it. -/
theorem create_lowerdirs_of_any_chain (cfg : Config) (base : String) (o : Overlay)
    (fs : FileSystem) (hbase : base ≠ "") (hlow : o.lowerdirs = []) :
    (Overlay.create cfg base (o, fs)).1.lowerdirs =
        (Overlay.new cfg fs base).1.upperdir ::
          Overlay.expectedChain cfg (Overlay.create cfg base (o, fs)).2
            (Overlay.new cfg fs base).1.lowerdirs ∧
    (∀ (front behind : List String) (x : String),
      (Overlay.new cfg fs base).1.lowerdirs = front ++ x :: behind →
      Overlay.snapshotExists cfg (Overlay.create cfg base (o, fs)).2 x = true →
      (∀ y ∈ behind, Overlay.snapshotExists cfg (Overlay.create cfg base (o, fs)).2 y = false) →
      (Overlay.create cfg base (o, fs)).1.lowerdirs =
        (Overlay.new cfg fs base).1.upperdir ::
          (front ++ x :: behind.filter (fun l => decide (Overlay.getIdOfOverlayDir cfg l = "")))) ∧
    ((∀ y ∈ (Overlay.new cfg fs base).1.lowerdirs,
        Overlay.snapshotExists cfg (Overlay.create cfg base (o, fs)).2 y = false) →
      (Overlay.create cfg base (o, fs)).1.lowerdirs =
        (Overlay.new cfg fs base).1.upperdir ::
          (Overlay.new cfg fs base).1.lowerdirs.filter
            (fun l => decide (Overlay.getIdOfOverlayDir cfg l = ""))) ∧
    (∀ x ∈ (Overlay.new cfg fs base).1.lowerdirs, Overlay.getIdOfOverlayDir cfg x = "" →
      x ∈ (Overlay.create cfg base (o, fs)).1.lowerdirs.tail) ∧
    ∀ x, Overlay.getIdOfOverlayDir cfg x ≠ "" →
      Overlay.snapshotExists cfg (Overlay.create cfg base (o, fs)).2 x = false →
      (x ∈ (Overlay.create cfg base (o, fs)).1.lowerdirs.tail ↔
        ∃ l1 l2 y, (Overlay.new cfg fs base).1.lowerdirs = l1 ++ x :: l2 ∧ y ∈ l2 ∧
          Overlay.snapshotExists cfg (Overlay.create cfg base (o, fs)).2 y = true) := by
  have hmain : (Overlay.create cfg base (o, fs)).1.lowerdirs =
        (Overlay.new cfg fs base).1.upperdir ::
          Overlay.expectedChain cfg (Overlay.create cfg base (o, fs)).2
            (Overlay.new cfg fs base).1.lowerdirs := by
    have h := createLoop_expected cfg
      (create_directories (remove_all (Overlay.new cfg fs base).2 o.upperdir) o.upperdir)
      (Overlay.new cfg fs base).1.lowerdirs (Overlay.new cfg fs base).1.lowerdirs [] rfl
    have hnil : Overlay.expectedChain cfg
        (create_directories (remove_all (Overlay.new cfg fs base).2 o.upperdir) o.upperdir) [] =
          [] := by
      simp [Overlay.expectedChain]
    rw [hnil] at h
    simp only [List.length_nil] at h
    simp only [Overlay.create, if_neg hbase, hlow]
    rw [h]
  refine ⟨hmain, ?_, ?_, ?_, ?_⟩
  · intro front behind x hP hx hb
    rw [hmain, hP, expectedChain_of_last cfg _ front behind x hx hb]
  · intro h
    rw [hmain, expectedChain_of_none cfg _ _ h]
  · intro x hx hid
    rw [hmain]
    exact mem_expectedChain_of_no_id cfg _ _ x hx hid
  · intro x hid hgone
    rw [hmain]
    exact mem_expectedChain_of_deleted cfg _ _ x hid hgone

/-- Witness for `create_lowerdirs_of_any_chain`: in the example world the parent, snapshot 5,
has the chain of the layers of snapshot 2 (exists) and snapshot 1 (deleted), the compatibility
location and `/etc`; the fresh overlay of snapshot 6 gets the parent's upperdir, the layer of
snapshot 2 and the two entries without an id. -/
theorem create_lowerdirs_of_any_chain_witness :
    ("5" ≠ "" ∧ (Overlay.new demoConfig demoFsMixed "6").1.lowerdirs = []) ∧
    (Overlay.create demoConfig "5"
        ((Overlay.new demoConfig demoFsMixed "6").1, demoFsMixed)).1.lowerdirs =
      (Overlay.new demoConfig demoFsMixed "5").1.upperdir ::
        Overlay.expectedChain demoConfig
          (Overlay.create demoConfig "5"
            ((Overlay.new demoConfig demoFsMixed "6").1, demoFsMixed)).2
          (Overlay.new demoConfig demoFsMixed "5").1.lowerdirs ∧
    (Overlay.new demoConfig demoFsMixed "5").1.lowerdirs =
      ["/var/lib/overlay/2/etc", "/var/lib/overlay/1/etc", "/sysroot/var/lib/overlay/etc",
        "/etc"] ∧
    (Overlay.create demoConfig "5"
        ((Overlay.new demoConfig demoFsMixed "6").1, demoFsMixed)).1.lowerdirs =
      ["/var/lib/overlay/5/etc", "/var/lib/overlay/2/etc", "/sysroot/var/lib/overlay/etc",
        "/etc"] :=
  ⟨⟨by decide, by decide⟩,
    (create_lowerdirs_of_any_chain demoConfig "5" (Overlay.new demoConfig demoFsMixed "6").1
      demoFsMixed (by decide) (by decide)).1,
    by decide, by decide⟩

end TransactionalUpdate
